import Mathlib

/-!
Verification development for the streaming conversation relay
(`src/api/routes.py`, `src/api/chat_store.py`, `src/api/workflow_client.py`).

The Python code is shallowly embedded as executable Lean definitions:
the SQLite-backed `ChatStore` becomes explicit state passing over a `DB`
record, and the two SSE generators (`response_stream` for the direct
chat-completions path and `workflow_stream` for the workflow-backend path)
become pure functions from their inputs (incoming messages, upstream event
sequence, injected faults) to the list of emitted frames plus the final
store state.
-/

namespace ChatRelay

/-! ## Persistence model (`chat_store.py`)

A `Message` row of the `messages` table and a `Conversation` row of the
`conversations` table.  `created_at` timestamps are modelled as naturals.
`DB.nextMessageId` models the SQLite `AUTOINCREMENT` counter for
`messages.id`. -/

structure Message where
  id : Nat
  conversation_id : String
  role : String
  content : String
  created_at : Nat
deriving DecidableEq, Repr

structure Conversation where
  id : String
  title : Option String
  created_at : Nat
  updated_at : Nat
deriving DecidableEq, Repr

structure DB where
  conversations : List Conversation
  messages : List Message
  nextMessageId : Nat
deriving DecidableEq, Repr

/-- `ChatStore.conversation_exists`: `SELECT 1 FROM conversations WHERE id = ?`. -/
def conversation_exists (db : DB) (cid : String) : Bool :=
  db.conversations.any (fun c => c.id == cid)

/-- `ChatStore.create_conversation`: `INSERT INTO conversations (id, title)`;
the fresh uuid and the `CURRENT_TIMESTAMP` value enter as parameters. -/
def create_conversation (db : DB) (title : Option String) (freshId : String) (t : Nat) : DB :=
  { db with conversations := db.conversations ++ [⟨freshId, title, t, t⟩] }

/-- `ChatStore.delete_conversation`: `DELETE FROM conversations WHERE id = ?`,
with the `ON DELETE CASCADE` foreign key (and `PRAGMA foreign_keys = ON`)
removing the conversation's messages. -/
def delete_conversation (db : DB) (cid : String) : DB :=
  { db with
    conversations := db.conversations.filter (fun c => !(c.id == cid)),
    messages := db.messages.filter (fun m => !(m.conversation_id == cid)) }

/-- The `CHECK(role IN ('user', 'assistant'))` column constraint. -/
def validRole (r : String) : Bool := r == "user" || r == "assistant"

/-- `ChatStore.append_message`: `INSERT INTO messages ...` followed by
`UPDATE conversations SET updated_at = CURRENT_TIMESTAMP`.  SQLite rejects
the insert (raising `IntegrityError`, modelled as `.error`) when the role
violates the `CHECK` constraint or the conversation id violates the
foreign key.  On success it returns `cur.lastrowid`. -/
def append_message (db : DB) (cid role content : String) (t : Nat) :
    Except String (DB × Nat) :=
  if !(validRole role) then .error "CHECK constraint failed: role"
  else if !(conversation_exists db cid) then .error "FOREIGN KEY constraint failed"
  else .ok
    ({ conversations :=
         db.conversations.map (fun c => if c.id == cid then { c with updated_at := t } else c),
       messages := db.messages ++ [⟨db.nextMessageId, cid, role, content, t⟩],
       nextMessageId := db.nextMessageId + 1 },
     db.nextMessageId)

/-- The `ORDER BY created_at ASC, id ASC` comparison of `get_messages`. -/
def msgLe (a b : Message) : Bool :=
  a.created_at < b.created_at || (a.created_at == b.created_at && a.id ≤ b.id)

/-- Sorted insertion used to model the SQL `ORDER BY` clause. -/
def insertLe (le : α → α → Bool) (a : α) : List α → List α
  | [] => [a]
  | b :: bs => if le a b then a :: b :: bs else b :: insertLe le a bs

/-- Insertion sort used to model the SQL `ORDER BY` clause. -/
def sortLe (le : α → α → Bool) : List α → List α
  | [] => []
  | a :: as => insertLe le a (sortLe le as)

/-- `ChatStore.get_messages`: rows of one conversation ordered by
`(created_at, id)`, with `LIMIT ? OFFSET ?`. -/
def get_messages (db : DB) (cid : String) (limit offset : Nat) : List Message :=
  (((sortLe msgLe (db.messages.filter (fun m => m.conversation_id == cid))).drop offset).take
    limit)

/-! ## Downstream frames (`routes.py`)

`serialize_sse_event` wraps a JSON dict; a `Frame` models that dict, with
each field read with `.get` semantics (absent = `none`). -/

structure Frame where
  ty : Option String := none
  content : Option String := none
  id : Option String := none
  conversation_id : Option String := none
  final_answer : Option String := none
deriving DecidableEq, Repr

def conversationF (cid : String) : Frame := { ty := some "conversation", conversation_id := some cid }

def messageF (c : String) : Frame := { ty := some "message", content := some c }

def messageDeltaF (iid c : String) : Frame :=
  { ty := some "message_delta", id := some iid, content := some c }

def completedF (c : String) : Frame := { ty := some "completed_message", content := some c }

def summaryF (fa : String) : Frame :=
  { ty := some "completion_summary", final_answer := some fa }

def streamEndF : Frame := { ty := some "stream_end" }

/-- Number of frames of a given `type` value in an emitted sequence. -/
def countTy (fs : List Frame) (ty : String) : Nat :=
  (fs.filter (fun f => f.ty == some ty)).length

/-! ## Workflow upstream transport (`workflow_client.py`)

`WorkflowClient.stream_conversation` consumes the SDK event stream and
yields JSON strings; each yielded dict is modelled as a `Frame`.  An event's
`item` is duck-typed with `getattr(item, attr, default)`, modelled by
`Option` fields read with `getD`. -/

structure WItem where
  ty : Option String := none
  id : Option String := none
  status : Option String := none
  action_id : Option String := none
deriving DecidableEq, Repr

/-- One raw upstream event, discriminated by the documented event-type
strings compared in `stream_conversation`. -/
inductive UEvent where
  | textDelta (delta : Option String)
  | textDone
  | itemAdded (item : Option WItem)
  | itemDone (item : Option WItem)
  | respCreated
  | respCompleted
  | errEvent (s : String)
  | otherEv
deriving DecidableEq, Repr

/-- The loop state of `stream_conversation`: the `items_content` dict (an
insertion-ordered association list, as Python dicts are), the explicit
`item_order` list, and `current_item_id` (initially `"default"`). -/
structure WCState where
  items_content : List (String × String)
  item_order : List String
  current_item_id : String
deriving DecidableEq, Repr

def initWC : WCState := ⟨[], [], "default"⟩

/-- `items_content.get(k, "")`-style lookup. -/
def lookupD (l : List (String × String)) (k : String) : String :=
  match l.find? (fun p => p.1 == k) with
  | some p => p.2
  | none => ""

/-- `k in items_content`. -/
def hasKey (l : List (String × String)) (k : String) : Bool :=
  l.any (fun p => p.1 == k)

/-- `items_content[k] += v` on a key already present. -/
def bumpContent (l : List (String × String)) (k v : String) : List (String × String) :=
  l.map (fun p => if p.1 == k then (p.1, p.2 ++ v) else p)

/-- `if k not in items_content: items_content[k] = ""; item_order.append(k)`. -/
def registerItem (st : WCState) (k : String) : WCState :=
  if hasKey st.items_content k then st
  else { st with
    items_content := st.items_content ++ [(k, "")],
    item_order := st.item_order ++ [k] }

/-- One iteration of the `async for event in stream` loop of
`stream_conversation`: the chunks yielded for this event and the new state. -/
def stepEvent (st : WCState) (e : UEvent) : List Frame × WCState :=
  match e with
  | .textDelta d =>
    match d with
    | some s =>
      if s == "" then ([], st)
      else
        let st1 := registerItem st st.current_item_id
        let st2 := { st1 with items_content := bumpContent st1.items_content st.current_item_id s }
        ([messageDeltaF st.current_item_id s], st2)
    | none => ([], st)
  | .itemAdded item =>
    let item_type := (item.bind (fun it => it.ty)).getD "unknown"
    let item_id := (item.bind (fun it => it.id)).getD "unknown"
    let st1 := { st with current_item_id := item_id }
    let st2 := registerItem st1 item_id
    match item with
    | some it =>
      if item_type == "workflow_action" then
        let msg := "[workflow_action] " ++ it.action_id.getD "" ++ " status=" ++ it.status.getD ""
        let st3 := { st2 with items_content := bumpContent st2.items_content item_id msg }
        ([messageDeltaF item_id msg], st3)
      else ([], st2)
    | none => ([], st2)
  | .errEvent s => ([messageF ("[Error event] " ++ s)], st)
  | _ => ([], st)

/-- The whole event loop of `stream_conversation`. -/
def runEvents : WCState → List UEvent → List Frame × WCState
  | st, [] => ([], st)
  | st, e :: rest =>
    let (cs, st1) := stepEvent st e
    let (cs2, st2) := runEvents st1 rest
    (cs ++ cs2, st2)

/-- `final_answer`: the accumulated content of the last id in `item_order`
(`items_content.get(last_id, "")`), empty when no item was registered. -/
def finalAnswer (st : WCState) : String :=
  match st.item_order.getLast? with
  | some lastId => lookupD st.items_content lastId
  | none => ""

/-- `WorkflowClient._messages_to_transcript`, line construction. -/
def transcriptLines (msgs : List (String × String)) : List String :=
  msgs.filterMap (fun p =>
    if p.1 == "system" then some ("System: " ++ p.2)
    else if p.1 == "user" then some ("User: " ++ p.2)
    else if p.1 == "assistant" then some ("Assistant: " ++ p.2)
    else none)

/-- Character-list matcher for `str.startswith`. -/
def hasPrefC : List Char → List Char → Bool
  | [], _ => true
  | _ :: _, [] => false
  | a :: as, b :: bs => a == b && hasPrefC as bs

/-- `s.startswith (sub)` on strings. -/
def startsWithS (s sub : String) : Bool := hasPrefC sub.data s.data

/-- `WorkflowClient._messages_to_transcript`: join the role-tagged lines,
appending a trailing `"Assistant:"` line when the last line is not already
an assistant line; empty history gives the empty transcript. -/
def transcript (msgs : List (String × String)) : String :=
  let lines := transcriptLines msgs
  if lines.isEmpty then ""
  else
    let lines2 :=
      match lines.getLast? with
      | some l => if startsWithS l "Assistant:" then lines else lines ++ ["Assistant:"]
      | none => lines
    String.intercalate "\n" lines2

/-- `WorkflowClient.stream_conversation`: with an empty transcript the
generator returns without yielding; otherwise it yields the event-loop
chunks and then, when the upstream did not raise, a `completion_summary`
chunk and a `completed_message` chunk carrying `final_answer`.  An upstream
exception (`ufault`) is re-raised as `WorkflowInvocationError(str(e))`
after the already-yielded chunks, returned as the second component. -/
def stream_conversation (msgs : List (String × String)) (events : List UEvent)
    (ufault : Option String) : List Frame × Option String :=
  if transcript msgs == "" then ([], none)
  else
    let (chunks, st) := runEvents initWC events
    match ufault with
    | some m => (chunks, some m)
    | none =>
      let fa := finalAnswer st
      (chunks ++ [summaryF fa, completedF fa], none)

/-! ## Direct chat-completions stream (`routes.py`, `response_stream`) -/

/-- A content-filter category entry of
`e.response.json()['error']['innererror']['content_filter_result']`:
`{k: {"filtered": bool, "severity": str?}}`. -/
structure FilterEntry where
  category : String
  filtered : Bool
  severity : Option String
deriving DecidableEq, Repr

/-- The exception caught by `except BaseException as e` in
`response_stream`.  `msg` is `str(e)`; `args0` is `e.args[0]` (`none` when
reading it raises); `content_filter_result` is the payload reached through
`e.response.json()[...]` (`none` when that access raises). -/
structure Exc where
  msg : String
  args0 : Option String
  content_filter_result : Option (List FilterEntry)
deriving DecidableEq, Repr

/-- Character-list matcher for Python's `sub in s`. -/
def hasSubC (sub : List Char) : List Char → Bool
  | [] => hasPrefC sub []
  | c :: rest => hasPrefC sub (c :: rest) || hasSubC sub rest

/-- `sub in s` on strings. -/
def containsSub (s sub : String) : Bool := hasSubC sub.data s.data

/-- One line of the error enumeration: for a triggered category,
`f"{k}, severity: {v['severity']}"` when a severity is present, else `k`. -/
def fmtEntry (e : FilterEntry) : Option String :=
  if e.filtered then
    some
      (match e.severity with
       | some s => e.category ++ ", severity: " ++ s
       | none => e.category)
  else none

/-- The content-filter explanation text built in the handler. -/
def filterText (entries : List FilterEntry) : String :=
  "We have found the next safety issues in the response: " ++
    String.intercalate ", " (entries.filterMap fmtEntry)

/-- The `except BaseException` handler of `response_stream`: when
`'(content_filter)' in e.args[0]` holds and the filter payload is
reachable, the response text enumerates the triggered categories;
any failure inside the inner `try` falls back to `str(e)`. -/
def processError (e : Exc) : String :=
  match e.args0 with
  | none => e.msg
  | some a =>
    if containsSub a "(content_filter)" then
      match e.content_filter_result with
      | some entries => filterText entries
      | none => e.msg
    else e.msg

/-- Behaviour of the chat-completions upstream for one turn: the optional
delta content of each received event (`event.choices[0].delta.content`,
`none` covering missing choices/content), either running to natural
completion or raising `e` after the listed events. -/
inductive ChatUpstream where
  | ok (events : List (Option String))
  | fault (events : List (Option String)) (e : Exc)
deriving DecidableEq, Repr

/-- Outcome of running one SSE generator to exhaustion: the frames it
yielded, the store state it left behind, and whether it terminated by an
uncaught exception. -/
structure StreamResult where
  frames : List Frame
  db : DB
  raised : Bool
deriving DecidableEq, Repr

/-- The `for msg in incoming_messages: chat_store.append_message(...)`
loop.  A failing append raises out of the generator; the returned flag
records whether all appends succeeded. -/
def appendAll (db : DB) (cid : String) (msgs : List (String × String)) (t : Nat) :
    DB × Bool :=
  match msgs with
  | [] => (db, true)
  | (r, c) :: rest =>
    match append_message db cid r c t with
    | .ok (db1, _) => appendAll db1 cid rest t
    | .error _ => (db, false)

/-- `accumulated_message` after the delta loop: truthy delta contents
concatenated in arrival order. -/
def accText (evs : List (Option String)) : String :=
  evs.foldl
    (fun a d =>
      match d with
      | some s => if s == "" then a else a ++ s
      | none => a)
    ""

/-- The `message` frames yielded by the delta loop, one per truthy delta. -/
def deltaFrames (evs : List (Option String)) : List Frame :=
  evs.filterMap
    (fun d =>
      match d with
      | some s => if s == "" then none else some (messageF s)
      | none => none)

/-- `response_stream` of `routes.py`: conversation frame, user-message
persistence (outside the `try`, so a failure there raises), the delta
loop, the `completed_message` frame, assistant persistence (an injected
storage fault `persistFault` models a write error there), the
`except BaseException` handler, and the final unconditional `stream_end`.
-/
def response_stream (cid : String) (incoming : List (String × String)) (db : DB)
    (t : Nat) (up : ChatUpstream) (persistFault : Option Exc) : StreamResult :=
  let f0 := [conversationF cid]
  match appendAll db cid incoming t with
  | (db1, false) => ⟨f0, db1, true⟩
  | (db1, true) =>
    match up with
    | .fault evs e =>
      ⟨f0 ++ deltaFrames evs ++ [completedF (processError e), streamEndF], db1, false⟩
    | .ok evs =>
      let acc := accText evs
      let f1 := f0 ++ deltaFrames evs ++ [completedF acc]
      if acc == "" then ⟨f1 ++ [streamEndF], db1, false⟩
      else
        match persistFault with
        | some e => ⟨f1 ++ [completedF (processError e), streamEndF], db1, false⟩
        | none =>
          match append_message db1 cid "assistant" acc t with
          | .ok (db2, _) => ⟨f1 ++ [streamEndF], db2, false⟩
          | .error m => ⟨f1 ++ [completedF (processError ⟨m, some m, none⟩), streamEndF], db1, false⟩

/-! ## Workflow-backend stream (`routes.py`, `workflow_stream`) -/

/-- One chunk received from the workflow client iterator: a JSON string
that either parses to a dict or fails `json.loads` (the
`JSONDecodeError` fallback skips it). -/
inductive WChunk where
  | parsed (f : Frame)
  | malformed (raw : String)
deriving DecidableEq, Repr

/-- Chunks surviving `json.loads`, forwarded verbatim with
`serialize_sse_event`. -/
def forwardFrames (cs : List WChunk) : List Frame :=
  cs.filterMap (fun c => match c with | .parsed f => some f | .malformed _ => none)

/-- `accumulated_response`: content captured only for parsed chunks whose
`type` is `"message"` or `"completed_message"` and that carry `content`,
and added only when the `type` is `"message"`. -/
def wAcc (cs : List WChunk) : String :=
  cs.foldl
    (fun a c =>
      match c with
      | .parsed f =>
        if (f.ty == some "message" || f.ty == some "completed_message") && f.content.isSome then
          if f.ty == some "message" then a ++ f.content.getD "" else a
        else a
      | .malformed _ => a)
    ""

/-- `workflow_stream` of `routes.py`: conversation frame, user-message
persistence (before the `try`, so a failure raises), chunk forwarding with
capture, assistant persistence inside the `try` (an injected storage
fault `persistFault` models a write error there), `stream_end` at the end
of the `try`, and the `except Exception` handler yielding an error
`completed_message` plus `stream_end`.  `wraise` is the exception raised
by the workflow-client iterator after the listed chunks. -/
def workflow_stream (cid : String) (incoming : List (String × String)) (db : DB)
    (t : Nat) (wchunks : List WChunk) (wraise : Option String)
    (persistFault : Option String) : StreamResult :=
  let f0 := [conversationF cid]
  match appendAll db cid incoming t with
  | (db1, false) => ⟨f0, db1, true⟩
  | (db1, true) =>
    let fwd := forwardFrames wchunks
    let acc := wAcc wchunks
    match wraise with
    | some m =>
      ⟨f0 ++ fwd ++ [completedF ("Error calling workflow: " ++ m), streamEndF], db1, false⟩
    | none =>
      if acc == "" then ⟨f0 ++ fwd ++ [streamEndF], db1, false⟩
      else
        match persistFault with
        | some m =>
          ⟨f0 ++ fwd ++ [completedF ("Error calling workflow: " ++ m), streamEndF], db1, false⟩
        | none =>
          match append_message db1 cid "assistant" acc t with
          | .ok (db2, _) => ⟨f0 ++ fwd ++ [streamEndF], db2, false⟩
          | .error m =>
            ⟨f0 ++ fwd ++ [completedF ("Error calling workflow: " ++ m), streamEndF], db1, false⟩

/-- The composed workflow turn: `workflow_stream` driving
`WorkflowClient.stream_conversation` on the full stored history
(`get_messages` with its default `limit=200, offset=0`), exactly as the
generator does after the user-message appends. -/
def workflow_turn (cid : String) (incoming : List (String × String)) (db : DB)
    (t : Nat) (events : List UEvent) (ufault : Option String)
    (persistFault : Option String) : StreamResult :=
  let db1 := (appendAll db cid incoming t).1
  let history := (get_messages db1 cid 200 0).map (fun m => (m.role, m.content))
  let (chunks, err) := stream_conversation history events ufault
  workflow_stream cid incoming db t (chunks.map .parsed) err persistFault

/-! ## Request handler (`routes.py`, `chat_stream_handler`) -/

/-- The request body (`ChatRequest` from `util.py`): an optional
conversation id and role/content message pairs. -/
structure ChatRequest where
  conversation_id : Option String
  messages : List (String × String)
deriving DecidableEq, Repr

/-- Outcome of `chat_stream_handler`: the 404 `HTTPException` (raised
before any frame is produced, with the store in the state it had at the
raise) or the streaming response. -/
inductive HandlerOut where
  | notFound (db : DB)
  | ok (res : StreamResult)
deriving DecidableEq, Repr

/-- `chat_stream_handler`: resolve the conversation (404 when a supplied
id does not exist, fresh conversation when none is supplied), then run the
workflow or the direct generator. -/
def chat_stream_handler (useWorkflow : Bool) (req : ChatRequest) (db : DB)
    (freshId : String) (t : Nat) (events : List UEvent) (ufault : Option String)
    (up : ChatUpstream) (persistFaultW : Option String)
    (persistFaultC : Option Exc) : HandlerOut :=
  match req.conversation_id with
  | some cid =>
    if conversation_exists db cid then
      .ok
        (if useWorkflow then workflow_turn cid req.messages db t events ufault persistFaultW
         else response_stream cid req.messages db t up persistFaultC)
    else .notFound db
  | none =>
    let db1 := create_conversation db none freshId t
    .ok
      (if useWorkflow then workflow_turn freshId req.messages db1 t events ufault persistFaultW
       else response_stream freshId req.messages db1 t up persistFaultC)

/-! ## Sample stores used by closed instances -/

/-- A store holding one empty conversation `"c1"`. -/
def dbEx : DB := ⟨[⟨"c1", none, 0, 0⟩], [], 0⟩

/-- A store holding two conversations, each with one message. -/
def dbEx2 : DB :=
  ⟨[⟨"c1", none, 0, 0⟩, ⟨"c2", none, 0, 0⟩],
   [⟨0, "c1", "user", "a", 0⟩, ⟨1, "c2", "user", "b", 0⟩], 2⟩

/-! ## Store lemmas -/

/-- The foreign-key invariant enforced by the schema: every row of
`messages` references an existing row of `conversations`. -/
def wfDB (db : DB) : Prop :=
  ∀ m ∈ db.messages, conversation_exists db m.conversation_id = true

lemma any_id_map (l : List Conversation) (cid x : String) (t : Nat) :
    (l.map (fun c => if c.id == cid then { c with updated_at := t } else c)).any
        (fun c => c.id == x)
      = l.any (fun c => c.id == x) := by
  induction l with
  | nil => rfl
  | cons c cs ih =>
    simp only [List.map_cons, List.any_cons, ih]
    cases h : c.id == cid <;> simp [h]

lemma append_message_ok (db : DB) (cid role content : String) (t : Nat)
    (hex : conversation_exists db cid = true) (hr : validRole role = true) :
    append_message db cid role content t =
      .ok
        ({ conversations :=
             db.conversations.map (fun c => if c.id == cid then { c with updated_at := t } else c),
           messages := db.messages ++ [⟨db.nextMessageId, cid, role, content, t⟩],
           nextMessageId := db.nextMessageId + 1 },
         db.nextMessageId) := by
  simp [append_message, hex, hr]

lemma append_message_ok_inv (db db2 : DB) (cid role content : String) (t : Nat) (mid : Nat)
    (h : append_message db cid role content t = .ok (db2, mid)) :
    conversation_exists db cid = true
    ∧ validRole role = true
    ∧ db2.messages = db.messages ++ [⟨db.nextMessageId, cid, role, content, t⟩]
    ∧ (∀ x, conversation_exists db2 x = conversation_exists db x) := by
  by_cases hr : validRole role = true
  · by_cases hex : conversation_exists db cid = true
    · rw [append_message_ok db cid role content t hex hr] at h
      injection h with h
      injection h with h1 h2
      subst h1
      refine ⟨hex, hr, rfl, ?_⟩
      intro x
      simpa [conversation_exists] using any_id_map db.conversations cid x t
    · simp [append_message, hr, hex] at h
  · simp [append_message, hr] at h

lemma conversation_exists_create (db : DB) (title : Option String) (freshId : String)
    (t : Nat) :
    conversation_exists (create_conversation db title freshId t) freshId = true := by
  simp [conversation_exists, create_conversation]

/-! ## C10: delete cascades and frames nothing else -/

/-- C10.  `delete_conversation` removes the conversation and (by the
`ON DELETE CASCADE` foreign key) all of its messages, leaves every other
conversation and every message of other conversations untouched, makes
`conversation_exists` false for the id, and both it and `append_message`
preserve the invariant that every persisted message references an existing
conversation. -/
theorem delete_conversation_cascade (db : DB) (cid : String) :
    conversation_exists (delete_conversation db cid) cid = false
    ∧ (∀ c, c ∈ (delete_conversation db cid).conversations ↔
        c ∈ db.conversations ∧ ¬c.id = cid)
    ∧ (∀ m, m ∈ (delete_conversation db cid).messages ↔
        m ∈ db.messages ∧ ¬m.conversation_id = cid)
    ∧ (wfDB db → wfDB (delete_conversation db cid))
    ∧ (∀ role content tm db2 mid,
        wfDB db → append_message db cid role content tm = .ok (db2, mid) → wfDB db2) := by
  refine ⟨?_, ?_, ?_, ?_, ?_⟩
  · simp [conversation_exists, delete_conversation, List.any_eq_true, List.mem_filter]
  · intro c
    simp [delete_conversation, List.mem_filter]
  · intro m
    simp [delete_conversation, List.mem_filter]
  · intro hwf m hm
    have hm' : m ∈ db.messages ∧ ¬m.conversation_id = cid := by
      simpa [delete_conversation, List.mem_filter] using hm
    have hex := hwf m hm'.1
    rw [conversation_exists, List.any_eq_true] at hex ⊢
    obtain ⟨c, hc, hcid⟩ := hex
    refine ⟨c, ?_, hcid⟩
    have : c.id = m.conversation_id := by simpa using hcid
    simp only [delete_conversation, List.mem_filter]
    exact ⟨hc, by simp [this, hm'.2]⟩
  · intro role content tm db2 mid hwf h
    obtain ⟨hex, _, hmsgs, hpres⟩ := append_message_ok_inv db db2 cid role content tm mid h
    intro m hm
    rw [hmsgs, List.mem_append] at hm
    rcases hm with hm | hm
    · rw [hpres]
      exact hwf m hm
    · simp only [List.mem_singleton] at hm
      subst hm
      rw [hpres]
      exact hex

/-- Witness for C10 at a concrete two-conversation store. -/
theorem delete_conversation_cascade_witness :
    conversation_exists (delete_conversation dbEx2 "c1") "c1" = false
    ∧ wfDB (delete_conversation dbEx2 "c1")
    ∧ (⟨1, "c2", "user", "b", 0⟩ : Message) ∈ (delete_conversation dbEx2 "c1").messages :=
  ⟨(delete_conversation_cascade dbEx2 "c1").1,
   (delete_conversation_cascade dbEx2 "c1").2.2.2.1 (by unfold wfDB; decide),
   ((delete_conversation_cascade dbEx2 "c1").2.2.1 ⟨1, "c2", "user", "b", 0⟩).mpr
     (by decide)⟩

/-! ## C9: append/read round-trip -/

/-- A sequence of `append_message` calls, each with its own role, content
and `CURRENT_TIMESTAMP` value. -/
def appendSeq (db : DB) (cid : String) : List (String × String × Nat) → DB × Bool
  | [] => (db, true)
  | (r, c, tm) :: rest =>
    match append_message db cid r c tm with
    | .ok (db1, _) => appendSeq db1 cid rest
    | .error _ => (db, false)

/-- The message rows such an append sequence inserts, with the
`AUTOINCREMENT` ids it assigns. -/
def mkRows (cid : String) (nid : Nat) : List (String × String × Nat) → List Message
  | [] => []
  | (r, c, tm) :: rest => ⟨nid, cid, r, c, tm⟩ :: mkRows cid (nid + 1) rest

lemma appendSeq_ok (cid : String) (items : List (String × String × Nat)) (db : DB)
    (hex : conversation_exists db cid = true)
    (hroles : ∀ it ∈ items, validRole it.1 = true) :
    ∃ db1, appendSeq db cid items = (db1, true)
      ∧ db1.messages = db.messages ++ mkRows cid db.nextMessageId items
      ∧ (∀ x, conversation_exists db1 x = conversation_exists db x) := by
  induction items generalizing db with
  | nil => exact ⟨db, rfl, by simp [mkRows], fun x => rfl⟩
  | cons it rest ih =>
    obtain ⟨r, c, tm⟩ := it
    have hr : validRole r = true := hroles (r, c, tm) (by simp)
    have hstep := append_message_ok db cid r c tm hex hr
    set db' : DB :=
      { conversations :=
          db.conversations.map (fun cv => if cv.id == cid then { cv with updated_at := tm } else cv),
        messages := db.messages ++ [⟨db.nextMessageId, cid, r, c, tm⟩],
        nextMessageId := db.nextMessageId + 1 } with hdb'
    have hex' : conversation_exists db' cid = true := by
      simp only [conversation_exists, hdb']
      rw [any_id_map]
      exact hex
    obtain ⟨db1, h1, h2, h3⟩ :=
      ih db' hex' (fun p hp => hroles p (by simp [hp]))
    refine ⟨db1, ?_, ?_, ?_⟩
    · rw [appendSeq, hstep]
      exact h1
    · rw [h2, hdb']
      simp [mkRows, List.append_assoc]
    · intro x
      rw [h3 x]
      simp only [conversation_exists, hdb']
      rw [any_id_map]

lemma insertLe_of_all (le : α → α → Bool) (a : α) (l : List α)
    (h : ∀ b ∈ l, le a b = true) : insertLe le a l = a :: l := by
  cases l with
  | nil => rfl
  | cons b bs => simp [insertLe, h b (by simp)]

lemma sortLe_of_pairwise (le : α → α → Bool) (l : List α)
    (h : l.Pairwise (fun a b => le a b = true)) : sortLe le l = l := by
  induction l with
  | nil => rfl
  | cons a as ih =>
    rw [List.pairwise_cons] at h
    rw [sortLe, ih h.2]
    exact insertLe_of_all le a as h.1

lemma mkRows_mem (cid : String) (items : List (String × String × Nat)) (n : Nat)
    (m : Message) (hm : m ∈ mkRows cid n items) :
    n ≤ m.id ∧ m.created_at ∈ items.map (fun it => it.2.2)
      ∧ m.conversation_id = cid := by
  induction items generalizing n with
  | nil => simp [mkRows] at hm
  | cons it rest ih =>
    obtain ⟨r, c, tm⟩ := it
    rw [mkRows, List.mem_cons] at hm
    rcases hm with hm | hm
    · subst hm
      simp
    · obtain ⟨h1, h2, h3⟩ := ih (n + 1) hm
      exact ⟨by omega, by simp [h2], h3⟩

lemma mkRows_pairwise (cid : String) (items : List (String × String × Nat)) (n : Nat)
    (h : (items.map (fun it => it.2.2)).Pairwise (· ≤ ·)) :
    (mkRows cid n items).Pairwise (fun a b => msgLe a b = true) := by
  induction items generalizing n with
  | nil => simp [mkRows]
  | cons it rest ih =>
    obtain ⟨r, c, tm⟩ := it
    simp only [List.map_cons, List.pairwise_cons] at h
    rw [mkRows, List.pairwise_cons]
    refine ⟨?_, ih (n + 1) h.2⟩
    intro b hb
    obtain ⟨hid, htm, _⟩ := mkRows_mem cid rest (n + 1) b hb
    have hle : tm ≤ b.created_at := h.1 b.created_at htm
    simp only [msgLe, Bool.or_eq_true, Bool.and_eq_true, decide_eq_true_eq, beq_iff_eq]
    omega

lemma mkRows_filter (cid : String) (items : List (String × String × Nat)) (n : Nat) :
    (mkRows cid n items).filter (fun m => m.conversation_id == cid) = mkRows cid n items := by
  induction items generalizing n with
  | nil => rfl
  | cons it rest ih =>
    obtain ⟨r, c, tm⟩ := it
    simp [mkRows, List.filter, ih]

lemma mkRows_map (cid : String) (items : List (String × String × Nat)) (n : Nat) :
    (mkRows cid n items).map (fun m => (m.role, m.content))
      = items.map (fun it => (it.1, it.2.1)) := by
  induction items generalizing n with
  | nil => rfl
  | cons it rest ih =>
    obtain ⟨r, c, tm⟩ := it
    simp [mkRows, ih]

lemma mkRows_length (cid : String) (items : List (String × String × Nat)) (n : Nat) :
    (mkRows cid n items).length = items.length := by
  induction items generalizing n with
  | nil => rfl
  | cons it rest ih =>
    obtain ⟨r, c, tm⟩ := it
    simp [mkRows, ih]

/-- C9.  Appending a sequence of messages to a conversation with no prior
messages and reading it back through `get_messages` returns exactly those
messages, in append order, with role and content unchanged — the
timestamps only need to be nondecreasing along the sequence, so several
appends may share one `CURRENT_TIMESTAMP` value (the `ORDER BY
(created_at, id)` tie-break on the autoincrement id keeps insertion
order). -/
theorem append_then_read_roundtrip (db : DB) (cid : String)
    (items : List (String × String × Nat)) (limit : Nat)
    (hex : conversation_exists db cid = true)
    (hempty : db.messages.filter (fun m => m.conversation_id == cid) = [])
    (hroles : ∀ it ∈ items, validRole it.1 = true)
    (htimes : (items.map (fun it => it.2.2)).Pairwise (· ≤ ·))
    (hlen : items.length ≤ limit) :
    (get_messages (appendSeq db cid items).1 cid limit 0).map (fun m => (m.role, m.content))
      = items.map (fun it => (it.1, it.2.1)) := by
  obtain ⟨db1, h1, h2, _⟩ := appendSeq_ok cid items db hex hroles
  rw [h1]
  simp only [get_messages, h2, List.filter_append, hempty, List.nil_append,
    mkRows_filter, List.drop_zero]
  rw [sortLe_of_pairwise msgLe _ (mkRows_pairwise cid items db.nextMessageId htimes),
    List.take_of_length_le (by rw [mkRows_length]; exact hlen), mkRows_map]

/-- Witness for C9: three appends sharing one timestamp round-trip in
insertion order. -/
theorem append_then_read_roundtrip_witness :
    (get_messages
        (appendSeq dbEx "c1" [("user", "a", 5), ("assistant", "b", 5), ("user", "c", 5)]).1
        "c1" 200 0).map (fun m => (m.role, m.content))
      = [("user", "a"), ("assistant", "b"), ("user", "c")] :=
  append_then_read_roundtrip dbEx "c1"
    [("user", "a", 5), ("assistant", "b", 5), ("user", "c", 5)] 200
    (by decide) (by decide) (by decide) (by decide) (by decide)

/-! ## Frame and stream lemmas -/

lemma countTy_append (a b : List Frame) (ty : String) :
    countTy (a ++ b) ty = countTy a ty + countTy b ty := by
  simp [countTy, List.filter_append]

lemma countTy_eq_zero (fs : List Frame) (ty : String)
    (h : ∀ f ∈ fs, ¬f.ty = some ty) : countTy fs ty = 0 := by
  simp only [countTy, List.length_eq_zero, List.filter_eq_nil_iff]
  intro f hf
  simpa using h f hf

lemma getLast?_app_pair (l : List α) (a b : α) : (l ++ [a, b]).getLast? = some b := by
  have h : l ++ [a, b] = (l ++ [a]) ++ [b] := by simp
  rw [h, List.getLast?_concat]

lemma deltaFrames_ty (evs : List (Option String)) (f : Frame) (hf : f ∈ deltaFrames evs) :
    f.ty = some "message" := by
  rw [deltaFrames, List.mem_filterMap] at hf
  obtain ⟨d, _, hd⟩ := hf
  match d with
  | none => simp at hd
  | some s =>
    by_cases hs : (s == "") = true <;> simp [hs] at hd
    rw [← hd]
    rfl

lemma countTy_deltaFrames (evs : List (Option String)) (ty : String) (h : ¬ty = "message") :
    countTy (deltaFrames evs) ty = 0 := by
  refine countTy_eq_zero _ _ (fun f hf => ?_)
  rw [deltaFrames_ty evs f hf]
  simp only [Option.some.injEq]
  exact fun hh => h hh.symm

lemma appendAll_exists (cid : String) (msgs : List (String × String)) (db : DB) (t : Nat) :
    ∀ x, conversation_exists (appendAll db cid msgs t).1 x = conversation_exists db x := by
  induction msgs generalizing db with
  | nil => intro x; rfl
  | cons p rest ih =>
    obtain ⟨r, c⟩ := p
    intro x
    rw [appendAll]
    cases h : append_message db cid r c t with
    | ok res =>
      obtain ⟨db1, mid⟩ := res
      obtain ⟨_, _, _, hpres⟩ := append_message_ok_inv db db1 cid r c t mid h
      rw [ih db1 x, hpres x]
    | error m => rfl

lemma appendAll_ok (cid : String) (msgs : List (String × String)) (db : DB) (t : Nat)
    (hex : conversation_exists db cid = true)
    (hroles : ∀ p ∈ msgs, validRole p.1 = true) :
    ∃ db1, appendAll db cid msgs t = (db1, true)
      ∧ (∀ x, conversation_exists db1 x = conversation_exists db x)
      ∧ (∀ m ∈ db1.messages, m ∈ db.messages ∨ m.conversation_id = cid) := by
  induction msgs generalizing db with
  | nil => exact ⟨db, rfl, fun x => rfl, fun m hm => Or.inl hm⟩
  | cons p rest ih =>
    obtain ⟨r, c⟩ := p
    have hr : validRole r = true := hroles (r, c) (by simp)
    have hstep := append_message_ok db cid r c t hex hr
    set db' : DB :=
      { conversations :=
          db.conversations.map (fun cv => if cv.id == cid then { cv with updated_at := t } else cv),
        messages := db.messages ++ [⟨db.nextMessageId, cid, r, c, t⟩],
        nextMessageId := db.nextMessageId + 1 } with hdb'
    have hex' : conversation_exists db' cid = true := by
      simp only [conversation_exists, hdb']
      rw [any_id_map]
      exact hex
    obtain ⟨db1, h1, h2, h3⟩ := ih db' hex' (fun q hq => hroles q (by simp [hq]))
    refine ⟨db1, ?_, ?_, ?_⟩
    · rw [appendAll, hstep]
      exact h1
    · intro x
      rw [h2 x]
      simp only [conversation_exists, hdb']
      rw [any_id_map]
    · intro m hm
      rcases h3 m hm with hm' | hm'
      · rw [hdb'] at hm'
        simp only [List.mem_append, List.mem_singleton] at hm'
        rcases hm' with hm' | hm'
        · exact Or.inl hm'
        · subst hm'
          exact Or.inr rfl
      · exact Or.inr hm'

lemma stepEvent_ty (st : WCState) (e : UEvent) (f : Frame)
    (hf : f ∈ (stepEvent st e).1) :
    f.ty = some "message_delta" ∨ f.ty = some "message" := by
  cases e with
  | textDelta d =>
    match d with
    | none => simp [stepEvent] at hf
    | some s =>
      by_cases hs : (s == "") = true <;> simp [stepEvent, hs] at hf
      subst hf
      exact Or.inl rfl
  | itemAdded item =>
    match item with
    | none => simp [stepEvent] at hf
    | some it =>
      by_cases hty : ((it.ty.getD "unknown") == "workflow_action") = true <;>
        simp [stepEvent, hty] at hf
      subst hf
      exact Or.inl rfl
  | errEvent s =>
    simp [stepEvent] at hf
    subst hf
    exact Or.inr rfl
  | textDone => simp [stepEvent] at hf
  | itemDone item => simp [stepEvent] at hf
  | respCreated => simp [stepEvent] at hf
  | respCompleted => simp [stepEvent] at hf
  | otherEv => simp [stepEvent] at hf

lemma runEvents_ty (evs : List UEvent) (st : WCState) (f : Frame)
    (hf : f ∈ (runEvents st evs).1) :
    f.ty = some "message_delta" ∨ f.ty = some "message" := by
  induction evs generalizing st with
  | nil => simp [runEvents] at hf
  | cons e rest ih =>
    rw [runEvents] at hf
    simp only [List.mem_append] at hf
    rcases hf with hf | hf
    · exact stepEvent_ty st e f hf
    · exact ih (stepEvent st e).2 hf

lemma stream_conversation_ty (msgs : List (String × String)) (evs : List UEvent)
    (uf : Option String) (f : Frame) (hf : f ∈ (stream_conversation msgs evs uf).1) :
    f.ty = some "message_delta" ∨ f.ty = some "message"
      ∨ f.ty = some "completion_summary" ∨ f.ty = some "completed_message" := by
  rw [stream_conversation] at hf
  by_cases ht : (transcript msgs == "") = true
  · simp [ht] at hf
  · simp only [ht, if_neg, Bool.false_eq_true, not_false_iff, if_false] at hf
    match uf with
    | some m =>
      simp only at hf
      rcases runEvents_ty evs initWC f hf with h | h
      · exact Or.inl h
      · exact Or.inr (Or.inl h)
    | none =>
      simp only [List.mem_append] at hf
      rcases hf with hf | hf
      · rcases runEvents_ty evs initWC f hf with h | h
        · exact Or.inl h
        · exact Or.inr (Or.inl h)
      · rw [List.mem_cons] at hf
        rcases hf with hf | hf
        · subst hf
          exact Or.inr (Or.inr (Or.inl rfl))
        · rw [List.mem_cons] at hf
          rcases hf with hf | hf
          · subst hf
            exact Or.inr (Or.inr (Or.inr rfl))
          · simp at hf

lemma forwardFrames_parsed (cs : List Frame) :
    forwardFrames (cs.map .parsed) = cs := by
  induction cs with
  | nil => rfl
  | cons c rest ih => simp [forwardFrames, List.filterMap] at ih ⊢; exact ih

lemma countTy_single_ne (f : Frame) (ty : String) (h : ¬f.ty = some ty) :
    countTy [f] ty = 0 := by
  have hb : (f.ty == some ty) = false := by
    rw [beq_eq_false_iff_ne]
    exact h
  simp [countTy, List.filter, hb]

lemma countTy_single_eq (f : Frame) (ty : String) (h : f.ty = some ty) :
    countTy [f] ty = 1 := by
  have hb : (f.ty == some ty) = true := by
    rw [beq_iff_eq]
    exact h
  simp [countTy, List.filter, hb]

lemma countTy_chunks_zero (cs : List Frame) (ty : String)
    (hcs : ∀ f ∈ cs, f.ty = some "message_delta" ∨ f.ty = some "message"
      ∨ f.ty = some "completion_summary" ∨ f.ty = some "completed_message")
    (h1 : ¬ty = "message_delta") (h2 : ¬ty = "message")
    (h3 : ¬ty = "completion_summary") (h4 : ¬ty = "completed_message") :
    countTy cs ty = 0 := by
  refine countTy_eq_zero _ _ (fun f hf => ?_)
  rcases hcs f hf with h | h | h | h <;> rw [h] <;> simp only [Option.some.injEq] <;>
    intro hh
  · exact h1 hh.symm
  · exact h2 hh.symm
  · exact h3 hh.symm
  · exact h4 hh.symm

lemma response_stream_fault_eq (cid : String) (incoming : List (String × String)) (db : DB)
    (t : Nat) (evs : List (Option String)) (e : Exc) (pfC : Option Exc) (db1 : DB)
    (h1 : appendAll db cid incoming t = (db1, true)) :
    response_stream cid incoming db t (.fault evs e) pfC =
      ⟨[conversationF cid] ++ deltaFrames evs ++ [completedF (processError e), streamEndF],
        db1, false⟩ := by
  unfold response_stream
  rw [h1]

lemma response_stream_ok_eq_empty (cid : String) (incoming : List (String × String)) (db : DB)
    (t : Nat) (evs : List (Option String)) (pfC : Option Exc) (db1 : DB)
    (h1 : appendAll db cid incoming t = (db1, true))
    (hacc : accText evs = "") :
    response_stream cid incoming db t (.ok evs) pfC =
      ⟨[conversationF cid] ++ deltaFrames evs ++ [completedF (accText evs)] ++ [streamEndF],
        db1, false⟩ := by
  have hb : (accText evs == "") = true := by rw [beq_iff_eq]; exact hacc
  simp [response_stream, h1, hb]

lemma response_stream_ok_eq_pf (cid : String) (incoming : List (String × String)) (db : DB)
    (t : Nat) (evs : List (Option String)) (e : Exc) (db1 : DB)
    (h1 : appendAll db cid incoming t = (db1, true))
    (hacc : ¬accText evs = "") :
    response_stream cid incoming db t (.ok evs) (some e) =
      ⟨[conversationF cid] ++ deltaFrames evs ++ [completedF (accText evs)]
          ++ [completedF (processError e), streamEndF],
        db1, false⟩ := by
  have hb : (accText evs == "") = false := by rw [beq_eq_false_iff_ne]; exact hacc
  simp [response_stream, h1, hb]

lemma response_stream_ok_eq_noPf (cid : String) (incoming : List (String × String)) (db : DB)
    (t : Nat) (evs : List (Option String)) (db1 : DB)
    (h1 : appendAll db cid incoming t = (db1, true))
    (hex1 : conversation_exists db1 cid = true)
    (hacc : ¬accText evs = "") :
    ∃ db2,
      response_stream cid incoming db t (.ok evs) none =
        ⟨[conversationF cid] ++ deltaFrames evs ++ [completedF (accText evs)] ++ [streamEndF],
          db2, false⟩
      ∧ db2.messages = db1.messages ++ [⟨db1.nextMessageId, cid, "assistant", accText evs, t⟩]
      ∧ (∀ x, conversation_exists db2 x = conversation_exists db1 x) := by
  have hb : (accText evs == "") = false := by rw [beq_eq_false_iff_ne]; exact hacc
  have happ := append_message_ok db1 cid "assistant" (accText evs) t hex1 (by decide)
  refine
    ⟨{ conversations :=
         db1.conversations.map (fun cv => if cv.id == cid then { cv with updated_at := t } else cv),
       messages := db1.messages ++ [⟨db1.nextMessageId, cid, "assistant", accText evs, t⟩],
       nextMessageId := db1.nextMessageId + 1 }, ?_, rfl, ?_⟩
  · simp [response_stream, h1, hb, happ]
  · intro x
    simp only [conversation_exists]
    rw [any_id_map]

lemma workflow_stream_raise_eq (cid : String) (incoming : List (String × String)) (db : DB)
    (t : Nat) (wchunks : List WChunk) (m : String) (pf : Option String) (db1 : DB)
    (h1 : appendAll db cid incoming t = (db1, true)) :
    workflow_stream cid incoming db t wchunks (some m) pf =
      ⟨[conversationF cid] ++ forwardFrames wchunks
          ++ [completedF ("Error calling workflow: " ++ m), streamEndF],
        db1, false⟩ := by
  unfold workflow_stream
  rw [h1]

lemma workflow_stream_none_empty_eq (cid : String) (incoming : List (String × String))
    (db : DB) (t : Nat) (wchunks : List WChunk) (pf : Option String) (db1 : DB)
    (h1 : appendAll db cid incoming t = (db1, true))
    (hacc : wAcc wchunks = "") :
    workflow_stream cid incoming db t wchunks none pf =
      ⟨[conversationF cid] ++ forwardFrames wchunks ++ [streamEndF], db1, false⟩ := by
  have hb : (wAcc wchunks == "") = true := by rw [beq_iff_eq]; exact hacc
  simp [workflow_stream, h1, hb]

lemma workflow_stream_none_pf_eq (cid : String) (incoming : List (String × String))
    (db : DB) (t : Nat) (wchunks : List WChunk) (m : String) (db1 : DB)
    (h1 : appendAll db cid incoming t = (db1, true))
    (hacc : ¬wAcc wchunks = "") :
    workflow_stream cid incoming db t wchunks none (some m) =
      ⟨[conversationF cid] ++ forwardFrames wchunks
          ++ [completedF ("Error calling workflow: " ++ m), streamEndF],
        db1, false⟩ := by
  have hb : (wAcc wchunks == "") = false := by rw [beq_eq_false_iff_ne]; exact hacc
  simp [workflow_stream, h1, hb]

lemma workflow_stream_none_noPf_eq (cid : String) (incoming : List (String × String))
    (db : DB) (t : Nat) (wchunks : List WChunk) (db1 : DB)
    (h1 : appendAll db cid incoming t = (db1, true))
    (hex1 : conversation_exists db1 cid = true)
    (hacc : ¬wAcc wchunks = "") :
    ∃ db2,
      workflow_stream cid incoming db t wchunks none none =
        ⟨[conversationF cid] ++ forwardFrames wchunks ++ [streamEndF], db2, false⟩
      ∧ db2.messages = db1.messages ++ [⟨db1.nextMessageId, cid, "assistant", wAcc wchunks, t⟩]
      ∧ (∀ x, conversation_exists db2 x = conversation_exists db1 x) := by
  have hb : (wAcc wchunks == "") = false := by rw [beq_eq_false_iff_ne]; exact hacc
  have happ := append_message_ok db1 cid "assistant" (wAcc wchunks) t hex1 (by decide)
  refine
    ⟨{ conversations :=
         db1.conversations.map (fun cv => if cv.id == cid then { cv with updated_at := t } else cv),
       messages := db1.messages ++ [⟨db1.nextMessageId, cid, "assistant", wAcc wchunks, t⟩],
       nextMessageId := db1.nextMessageId + 1 }, ?_, rfl, ?_⟩
  · simp [workflow_stream, h1, hb, happ]
  · intro x
    simp only [conversation_exists]
    rw [any_id_map]

lemma workflow_turn_eq (cid : String) (incoming : List (String × String)) (db : DB)
    (t : Nat) (events : List UEvent) (ufault : Option String) (pf : Option String)
    (db1 : DB) (chunks : List Frame) (err : Option String)
    (h1 : appendAll db cid incoming t = (db1, true))
    (hsc : stream_conversation
        ((get_messages db1 cid 200 0).map (fun m => (m.role, m.content))) events ufault
      = (chunks, err)) :
    workflow_turn cid incoming db t events ufault pf =
      workflow_stream cid incoming db t (chunks.map .parsed) err pf := by
  unfold workflow_turn
  rw [h1]
  simp only [hsc]

lemma countTy_pair (f g : Frame) (ty : String) :
    countTy [f, g] ty = countTy [f] ty + countTy [g] ty := by
  have h : [f, g] = [f] ++ [g] := rfl
  rw [h, countTy_append]

lemma conversationF_ty (cid : String) : (conversationF cid).ty = some "conversation" := rfl

lemma messageF_ty (c : String) : (messageF c).ty = some "message" := rfl

lemma messageDeltaF_ty (iid c : String) : (messageDeltaF iid c).ty = some "message_delta" := rfl

lemma completedF_ty (c : String) : (completedF c).ty = some "completed_message" := rfl

lemma summaryF_ty (fa : String) : (summaryF fa).ty = some "completion_summary" := rfl

lemma streamEndF_ty : streamEndF.ty = some "stream_end" := rfl

lemma end_spec_concat (pre : List Frame) (h : countTy pre "stream_end" = 0) :
    countTy (pre ++ [streamEndF]) "stream_end" = 1
    ∧ (pre ++ [streamEndF]).getLast? = some streamEndF := by
  constructor
  · rw [countTy_append, h, countTy_single_eq streamEndF _ rfl]
  · exact List.getLast?_concat _

lemma end_spec_pair (pre : List Frame) (x : Frame) (hx : ¬x.ty = some "stream_end")
    (h : countTy pre "stream_end" = 0) :
    countTy (pre ++ [x, streamEndF]) "stream_end" = 1
    ∧ (pre ++ [x, streamEndF]).getLast? = some streamEndF := by
  constructor
  · rw [countTy_append, h, countTy_pair, countTy_single_ne x _ hx,
      countTy_single_eq streamEndF _ rfl]
  · exact getLast?_app_pair _ _ _

lemma pre_count_resp (cid : String) (evs : List (Option String)) :
    countTy ([conversationF cid] ++ deltaFrames evs) "stream_end" = 0 := by
  rw [countTy_append,
    countTy_single_ne (conversationF cid) _ (by rw [conversationF_ty]; decide),
    countTy_deltaFrames evs _ (by decide)]

lemma pre_count_resp2 (cid : String) (evs : List (Option String)) (s : String) :
    countTy ([conversationF cid] ++ deltaFrames evs ++ [completedF s]) "stream_end" = 0 := by
  rw [countTy_append, pre_count_resp,
    countTy_single_ne (completedF s) _ (by rw [completedF_ty]; decide)]

lemma response_stream_end_spec (cid : String) (incoming : List (String × String)) (db : DB)
    (t : Nat) (up : ChatUpstream) (pfC : Option Exc) (db1 : DB)
    (h1 : appendAll db cid incoming t = (db1, true))
    (hex1 : conversation_exists db1 cid = true) :
    countTy (response_stream cid incoming db t up pfC).frames "stream_end" = 1
    ∧ (response_stream cid incoming db t up pfC).frames.getLast? = some streamEndF
    ∧ (response_stream cid incoming db t up pfC).raised = false := by
  cases up with
  | ok evs =>
    by_cases hacc : accText evs = ""
    · rw [response_stream_ok_eq_empty cid incoming db t evs pfC db1 h1 hacc]
      obtain ⟨hc, hl⟩ := end_spec_concat _ (pre_count_resp2 cid evs (accText evs))
      exact ⟨hc, hl, rfl⟩
    · cases pfC with
      | none =>
        obtain ⟨db2, heq, _, _⟩ :=
          response_stream_ok_eq_noPf cid incoming db t evs db1 h1 hex1 hacc
        rw [heq]
        obtain ⟨hc, hl⟩ := end_spec_concat _ (pre_count_resp2 cid evs (accText evs))
        exact ⟨hc, hl, rfl⟩
      | some e =>
        rw [response_stream_ok_eq_pf cid incoming db t evs e db1 h1 hacc]
        obtain ⟨hc, hl⟩ := end_spec_pair _ (completedF (processError e))
          (by rw [completedF_ty]; decide) (pre_count_resp2 cid evs (accText evs))
        exact ⟨hc, hl, rfl⟩
  | fault evs e =>
    rw [response_stream_fault_eq cid incoming db t evs e pfC db1 h1]
    obtain ⟨hc, hl⟩ := end_spec_pair _ (completedF (processError e))
      (by rw [completedF_ty]; decide) (pre_count_resp cid evs)
    exact ⟨hc, hl, rfl⟩

lemma pre_count_chunks (cid : String) (chunks : List Frame)
    (hty : ∀ f ∈ chunks, f.ty = some "message_delta" ∨ f.ty = some "message"
      ∨ f.ty = some "completion_summary" ∨ f.ty = some "completed_message") :
    countTy ([conversationF cid] ++ chunks) "stream_end" = 0 := by
  rw [countTy_append,
    countTy_single_ne (conversationF cid) _ (by rw [conversationF_ty]; decide),
    countTy_chunks_zero chunks _ hty (by decide) (by decide) (by decide) (by decide)]

lemma workflow_turn_end_spec (cid : String) (incoming : List (String × String)) (db : DB)
    (t : Nat) (events : List UEvent) (ufault : Option String) (pfW : Option String)
    (db1 : DB)
    (h1 : appendAll db cid incoming t = (db1, true))
    (hex1 : conversation_exists db1 cid = true) :
    countTy (workflow_turn cid incoming db t events ufault pfW).frames "stream_end" = 1
    ∧ (workflow_turn cid incoming db t events ufault pfW).frames.getLast? = some streamEndF
    ∧ (workflow_turn cid incoming db t events ufault pfW).raised = false := by
  rcases hsc : stream_conversation
      ((get_messages db1 cid 200 0).map (fun m => (m.role, m.content))) events ufault
    with ⟨chunks, err⟩
  rw [workflow_turn_eq cid incoming db t events ufault pfW db1 chunks err h1 hsc]
  have hty : ∀ f ∈ chunks, f.ty = some "message_delta" ∨ f.ty = some "message"
      ∨ f.ty = some "completion_summary" ∨ f.ty = some "completed_message" :=
    fun f hf => stream_conversation_ty _ events ufault f (by rw [hsc]; exact hf)
  have h0 := pre_count_chunks cid chunks hty
  cases err with
  | none =>
    by_cases hacc : wAcc (chunks.map .parsed) = ""
    · rw [workflow_stream_none_empty_eq cid incoming db t (chunks.map .parsed) pfW db1 h1 hacc,
        forwardFrames_parsed]
      obtain ⟨hc, hl⟩ := end_spec_concat _ h0
      exact ⟨hc, hl, rfl⟩
    · cases pfW with
      | none =>
        obtain ⟨db2, heq, _, _⟩ :=
          workflow_stream_none_noPf_eq cid incoming db t (chunks.map .parsed) db1 h1 hex1 hacc
        rw [heq, forwardFrames_parsed]
        obtain ⟨hc, hl⟩ := end_spec_concat _ h0
        exact ⟨hc, hl, rfl⟩
      | some m =>
        rw [workflow_stream_none_pf_eq cid incoming db t (chunks.map .parsed) m db1 h1 hacc,
          forwardFrames_parsed]
        obtain ⟨hc, hl⟩ := end_spec_pair _ (completedF ("Error calling workflow: " ++ m))
          (by rw [completedF_ty]; decide) h0
        exact ⟨hc, hl, rfl⟩
  | some m =>
    rw [workflow_stream_raise_eq cid incoming db t (chunks.map .parsed) m pfW db1 h1,
      forwardFrames_parsed]
    obtain ⟨hc, hl⟩ := end_spec_pair _ (completedF ("Error calling workflow: " ++ m))
      (by rw [completedF_ty]; decide) h0
    exact ⟨hc, hl, rfl⟩

/-- C1.  On both backends, every turn of the chat stream operation emits
exactly one `stream_end` frame, it is the last frame, and the generator
never terminates by re-raising — covering normal completion, an upstream
fault raised after streaming began, a content-filter rejection
(a `ChatUpstream.fault` whose payload carries a filter result), and
malformed in-band events (delta-less chat events, unknown workflow
events, error events). -/
theorem stream_end_exactly_once_and_last (cid : String)
    (incoming : List (String × String)) (db : DB) (t : Nat)
    (up : ChatUpstream) (pfC : Option Exc)
    (events : List UEvent) (ufault : Option String) (pfW : Option String)
    (hex : conversation_exists db cid = true)
    (hroles : ∀ p ∈ incoming, validRole p.1 = true) :
    (countTy (response_stream cid incoming db t up pfC).frames "stream_end" = 1
      ∧ (response_stream cid incoming db t up pfC).frames.getLast? = some streamEndF
      ∧ (response_stream cid incoming db t up pfC).raised = false)
    ∧ (countTy (workflow_turn cid incoming db t events ufault pfW).frames "stream_end" = 1
      ∧ (workflow_turn cid incoming db t events ufault pfW).frames.getLast? = some streamEndF
      ∧ (workflow_turn cid incoming db t events ufault pfW).raised = false) := by
  obtain ⟨db1, h1, hpres, _⟩ := appendAll_ok cid incoming db t hex hroles
  have hex1 : conversation_exists db1 cid = true := by rw [hpres]; exact hex
  exact ⟨response_stream_end_spec cid incoming db t up pfC db1 h1 hex1,
    workflow_turn_end_spec cid incoming db t events ufault pfW db1 h1 hex1⟩

/-- Witness for C1 on a concrete turn of each backend. -/
theorem stream_end_exactly_once_and_last_witness :
    countTy (response_stream "c1" [("user", "Hi")] dbEx 0 (.ok [some "Hel", some "lo"])
      none).frames "stream_end" = 1
    ∧ countTy (workflow_turn "c1" [("user", "Hi")] dbEx 0 [.textDelta (some "Hello")] none
      none).frames "stream_end" = 1 :=
  ⟨(stream_end_exactly_once_and_last "c1" [("user", "Hi")] dbEx 0
      (.ok [some "Hel", some "lo"]) none [.textDelta (some "Hello")] none none
      (by decide) (by decide)).1.1,
   (stream_end_exactly_once_and_last "c1" [("user", "Hi")] dbEx 0
      (.ok [some "Hel", some "lo"]) none [.textDelta (some "Hello")] none none
      (by decide) (by decide)).2.1⟩

lemma countTy_concat_end (pre : List Frame) (ty : String) (h : ¬ty = "stream_end") :
    countTy (pre ++ [streamEndF]) ty = countTy pre ty := by
  rw [countTy_append, countTy_single_ne streamEndF ty
    (by simp only [streamEndF_ty, Option.some.injEq]; exact fun hh => h hh.symm)]
  omega

lemma countTy_pair_end (pre : List Frame) (x : Frame) (ty : String)
    (hx : ¬x.ty = some ty) (h : ¬ty = "stream_end") :
    countTy (pre ++ [x, streamEndF]) ty = countTy pre ty := by
  rw [countTy_append, countTy_pair, countTy_single_ne x ty hx,
    countTy_single_ne streamEndF ty
      (by simp only [streamEndF_ty, Option.some.injEq]; exact fun hh => h hh.symm)]
  omega

lemma conv_count_resp (cid : String) (evs : List (Option String)) :
    countTy ([conversationF cid] ++ deltaFrames evs) "conversation" = 1 := by
  rw [countTy_append, countTy_single_eq _ _ (conversationF_ty cid),
    countTy_deltaFrames evs _ (by decide)]

lemma conv_count_resp2 (cid : String) (evs : List (Option String)) (s : String) :
    countTy ([conversationF cid] ++ deltaFrames evs ++ [completedF s]) "conversation" = 1 := by
  rw [countTy_append, conv_count_resp,
    countTy_single_ne (completedF s) _ (by rw [completedF_ty]; decide)]

lemma conv_count_chunks (cid : String) (chunks : List Frame)
    (hty : ∀ f ∈ chunks, f.ty = some "message_delta" ∨ f.ty = some "message"
      ∨ f.ty = some "completion_summary" ∨ f.ty = some "completed_message") :
    countTy ([conversationF cid] ++ chunks) "conversation" = 1 := by
  rw [countTy_append, countTy_single_eq _ _ (conversationF_ty cid),
    countTy_chunks_zero chunks _ hty (by decide) (by decide) (by decide) (by decide)]

lemma response_stream_conv_spec (cid : String) (incoming : List (String × String)) (db : DB)
    (t : Nat) (up : ChatUpstream) (pfC : Option Exc) (db1 : DB)
    (h1 : appendAll db cid incoming t = (db1, true))
    (hex1 : conversation_exists db1 cid = true)
    (hmem : ∀ m ∈ db1.messages, m ∈ db.messages ∨ m.conversation_id = cid) :
    countTy (response_stream cid incoming db t up pfC).frames "conversation" = 1
    ∧ (response_stream cid incoming db t up pfC).frames.head? = some (conversationF cid)
    ∧ (∀ m ∈ (response_stream cid incoming db t up pfC).db.messages,
        m ∈ db.messages ∨ m.conversation_id = cid) := by
  cases up with
  | ok evs =>
    by_cases hacc : accText evs = ""
    · rw [response_stream_ok_eq_empty cid incoming db t evs pfC db1 h1 hacc]
      exact ⟨by rw [countTy_concat_end _ _ (by decide), conv_count_resp2], rfl, hmem⟩
    · cases pfC with
      | none =>
        obtain ⟨db2, heq, hm2, _⟩ :=
          response_stream_ok_eq_noPf cid incoming db t evs db1 h1 hex1 hacc
        rw [heq]
        refine ⟨by rw [countTy_concat_end _ _ (by decide), conv_count_resp2], rfl, ?_⟩
        intro m hm
        rw [hm2, List.mem_append] at hm
        rcases hm with hm | hm
        · exact hmem m hm
        · simp only [List.mem_singleton] at hm
          subst hm
          exact Or.inr rfl
      | some e =>
        rw [response_stream_ok_eq_pf cid incoming db t evs e db1 h1 hacc]
        exact ⟨by
          rw [countTy_pair_end _ (completedF (processError e)) _
            (by rw [completedF_ty]; decide) (by decide), conv_count_resp2], rfl, hmem⟩
  | fault evs e =>
    rw [response_stream_fault_eq cid incoming db t evs e pfC db1 h1]
    exact ⟨by
      rw [countTy_pair_end _ (completedF (processError e)) _
        (by rw [completedF_ty]; decide) (by decide), conv_count_resp], rfl, hmem⟩

lemma workflow_turn_conv_spec (cid : String) (incoming : List (String × String)) (db : DB)
    (t : Nat) (events : List UEvent) (ufault : Option String) (pfW : Option String)
    (db1 : DB)
    (h1 : appendAll db cid incoming t = (db1, true))
    (hex1 : conversation_exists db1 cid = true)
    (hmem : ∀ m ∈ db1.messages, m ∈ db.messages ∨ m.conversation_id = cid) :
    countTy (workflow_turn cid incoming db t events ufault pfW).frames "conversation" = 1
    ∧ (workflow_turn cid incoming db t events ufault pfW).frames.head?
        = some (conversationF cid)
    ∧ (∀ m ∈ (workflow_turn cid incoming db t events ufault pfW).db.messages,
        m ∈ db.messages ∨ m.conversation_id = cid) := by
  rcases hsc : stream_conversation
      ((get_messages db1 cid 200 0).map (fun m => (m.role, m.content))) events ufault
    with ⟨chunks, err⟩
  rw [workflow_turn_eq cid incoming db t events ufault pfW db1 chunks err h1 hsc]
  have hty : ∀ f ∈ chunks, f.ty = some "message_delta" ∨ f.ty = some "message"
      ∨ f.ty = some "completion_summary" ∨ f.ty = some "completed_message" :=
    fun f hf => stream_conversation_ty _ events ufault f (by rw [hsc]; exact hf)
  have h0 := conv_count_chunks cid chunks hty
  cases err with
  | none =>
    by_cases hacc : wAcc (chunks.map .parsed) = ""
    · rw [workflow_stream_none_empty_eq cid incoming db t (chunks.map .parsed) pfW db1 h1 hacc,
        forwardFrames_parsed]
      exact ⟨by rw [countTy_concat_end _ _ (by decide), h0], rfl, hmem⟩
    · cases pfW with
      | none =>
        obtain ⟨db2, heq, hm2, _⟩ :=
          workflow_stream_none_noPf_eq cid incoming db t (chunks.map .parsed) db1 h1 hex1 hacc
        rw [heq, forwardFrames_parsed]
        refine ⟨by rw [countTy_concat_end _ _ (by decide), h0], rfl, ?_⟩
        intro m hm
        rw [hm2, List.mem_append] at hm
        rcases hm with hm | hm
        · exact hmem m hm
        · simp only [List.mem_singleton] at hm
          subst hm
          exact Or.inr rfl
      | some m =>
        rw [workflow_stream_none_pf_eq cid incoming db t (chunks.map .parsed) m db1 h1 hacc,
          forwardFrames_parsed]
        exact ⟨by
          rw [countTy_pair_end _ (completedF ("Error calling workflow: " ++ m)) _
            (by rw [completedF_ty]; decide) (by decide), h0], rfl, hmem⟩
  | some m =>
    rw [workflow_stream_raise_eq cid incoming db t (chunks.map .parsed) m pfW db1 h1,
      forwardFrames_parsed]
    exact ⟨by
      rw [countTy_pair_end _ (completedF ("Error calling workflow: " ++ m)) _
        (by rw [completedF_ty]; decide) (by decide), h0], rfl, hmem⟩

/-- C4.  On both backends, a turn emits exactly one `conversation` frame,
it is the first frame, and it carries the same conversation id that every
message persisted during the turn (user appends and the assistant append)
is stored under: every message in the resulting store either predates the
turn or belongs to `cid`. -/
theorem conversation_frame_first_and_consistent (cid : String)
    (incoming : List (String × String)) (db : DB) (t : Nat)
    (up : ChatUpstream) (pfC : Option Exc)
    (events : List UEvent) (ufault : Option String) (pfW : Option String)
    (hex : conversation_exists db cid = true)
    (hroles : ∀ p ∈ incoming, validRole p.1 = true) :
    (countTy (response_stream cid incoming db t up pfC).frames "conversation" = 1
      ∧ (response_stream cid incoming db t up pfC).frames.head? = some (conversationF cid)
      ∧ (∀ m ∈ (response_stream cid incoming db t up pfC).db.messages,
          m ∈ db.messages ∨ m.conversation_id = cid))
    ∧ (countTy (workflow_turn cid incoming db t events ufault pfW).frames "conversation" = 1
      ∧ (workflow_turn cid incoming db t events ufault pfW).frames.head?
          = some (conversationF cid)
      ∧ (∀ m ∈ (workflow_turn cid incoming db t events ufault pfW).db.messages,
          m ∈ db.messages ∨ m.conversation_id = cid)) := by
  obtain ⟨db1, h1, hpres, hmem⟩ := appendAll_ok cid incoming db t hex hroles
  have hex1 : conversation_exists db1 cid = true := by rw [hpres]; exact hex
  exact ⟨response_stream_conv_spec cid incoming db t up pfC db1 h1 hex1 hmem,
    workflow_turn_conv_spec cid incoming db t events ufault pfW db1 h1 hex1 hmem⟩

/-- Witness for C4 on a concrete turn of each backend. -/
theorem conversation_frame_first_and_consistent_witness :
    (response_stream "c1" [("user", "Hi")] dbEx 0 (.ok [some "Hel", some "lo"])
      none).frames.head? = some (conversationF "c1")
    ∧ (workflow_turn "c1" [("user", "Hi")] dbEx 0 [.textDelta (some "Hello")] none
      none).frames.head? = some (conversationF "c1") :=
  ⟨(conversation_frame_first_and_consistent "c1" [("user", "Hi")] dbEx 0
      (.ok [some "Hel", some "lo"]) none [.textDelta (some "Hello")] none none
      (by decide) (by decide)).1.2.1,
   (conversation_frame_first_and_consistent "c1" [("user", "Hi")] dbEx 0
      (.ok [some "Hel", some "lo"]) none [.textDelta (some "Hello")] none none
      (by decide) (by decide)).2.2.1⟩

lemma cm_count_resp (cid : String) (evs : List (Option String)) :
    countTy ([conversationF cid] ++ deltaFrames evs) "completed_message" = 0 := by
  rw [countTy_append,
    countTy_single_ne (conversationF cid) _ (by rw [conversationF_ty]; decide),
    countTy_deltaFrames evs _ (by decide)]

lemma cm_count_resp2 (cid : String) (evs : List (Option String)) (s : String) :
    countTy ([conversationF cid] ++ deltaFrames evs ++ [completedF s])
      "completed_message" = 1 := by
  rw [countTy_append, cm_count_resp, countTy_single_eq _ _ (completedF_ty s)]

lemma countTy_runEvents_cm (evs : List UEvent) (st : WCState) :
    countTy (runEvents st evs).1 "completed_message" = 0 := by
  refine countTy_eq_zero _ _ (fun f hf => ?_)
  rcases runEvents_ty evs st f hf with h | h <;> rw [h] <;> decide

lemma countTy_chunks_cm (msgs : List (String × String)) (evs : List UEvent)
    (uf : Option String) :
    countTy (stream_conversation msgs evs uf).1 "completed_message" ≤ 1 := by
  rw [stream_conversation]
  by_cases ht : (transcript msgs == "") = true
  · simp [ht, countTy]
  · simp only [ht, Bool.false_eq_true, if_false]
    match uf with
    | some m =>
      simp only
      rw [countTy_runEvents_cm]
      omega
    | none =>
      simp only
      rw [countTy_append, countTy_runEvents_cm, countTy_pair,
        countTy_single_ne (summaryF _) _ (by rw [summaryF_ty]; decide),
        countTy_single_eq _ _ (completedF_ty _)]

/-- C3 (amended).  On the direct chat-completions path, the number of
`completed_message` frames in a turn is exactly one — except when an
exception (such as a storage write failure) is raised during
assistant-message persistence, after the `completed_message` frame has
already been emitted: the handler then emits one additional error
`completed_message`, for a total of exactly two.  The workflow path emits
at most two `completed_message` frames. -/
theorem completed_message_count (cid : String)
    (incoming : List (String × String)) (db : DB) (t : Nat)
    (up : ChatUpstream) (pfC : Option Exc)
    (events : List UEvent) (ufault : Option String) (pfW : Option String)
    (hex : conversation_exists db cid = true)
    (hroles : ∀ p ∈ incoming, validRole p.1 = true) :
    countTy (response_stream cid incoming db t up pfC).frames "completed_message" =
      (match up, pfC with
       | .ok evs, some _ => if accText evs = "" then 1 else 2
       | .ok _, none => 1
       | .fault _ _, _ => 1)
    ∧ countTy (workflow_turn cid incoming db t events ufault pfW).frames
        "completed_message" ≤ 2 := by
  obtain ⟨db1, h1, hpres, _⟩ := appendAll_ok cid incoming db t hex hroles
  have hex1 : conversation_exists db1 cid = true := by rw [hpres]; exact hex
  constructor
  · cases up with
    | ok evs =>
      by_cases hacc : accText evs = ""
      · rw [response_stream_ok_eq_empty cid incoming db t evs pfC db1 h1 hacc]
        cases pfC with
        | none =>
          simp only
          rw [countTy_concat_end _ _ (by decide), cm_count_resp2]
        | some e =>
          simp only [hacc, if_pos]
          rw [countTy_concat_end _ _ (by decide), cm_count_resp2]
      · cases pfC with
        | none =>
          obtain ⟨db2, heq, _, _⟩ :=
            response_stream_ok_eq_noPf cid incoming db t evs db1 h1 hex1 hacc
          rw [heq]
          simp only
          rw [countTy_concat_end _ _ (by decide), cm_count_resp2]
        | some e =>
          rw [response_stream_ok_eq_pf cid incoming db t evs e db1 h1 hacc]
          rw [countTy_append, countTy_pair, cm_count_resp2,
            countTy_single_eq _ _ (completedF_ty _),
            countTy_single_ne streamEndF _ (by rw [streamEndF_ty]; decide)]
          simp [hacc]
    | fault evs e =>
      rw [response_stream_fault_eq cid incoming db t evs e pfC db1 h1]
      simp only
      rw [countTy_append, countTy_pair, cm_count_resp,
        countTy_single_eq _ _ (completedF_ty _),
        countTy_single_ne streamEndF _ (by rw [streamEndF_ty]; decide)]
  · rcases hsc : stream_conversation
        ((get_messages db1 cid 200 0).map (fun m => (m.role, m.content))) events ufault
      with ⟨chunks, err⟩
    rw [workflow_turn_eq cid incoming db t events ufault pfW db1 chunks err h1 hsc]
    have hch : countTy chunks "completed_message" ≤ 1 := by
      have := countTy_chunks_cm
        ((get_messages db1 cid 200 0).map (fun m => (m.role, m.content))) events ufault
      rw [hsc] at this
      exact this
    have hpre : countTy ([conversationF cid] ++ chunks) "completed_message" ≤ 1 := by
      rw [countTy_append,
        countTy_single_ne (conversationF cid) _ (by rw [conversationF_ty]; decide)]
      omega
    cases err with
    | none =>
      by_cases hacc : wAcc (chunks.map .parsed) = ""
      · rw [workflow_stream_none_empty_eq cid incoming db t (chunks.map .parsed) pfW db1 h1
          hacc, forwardFrames_parsed]
        rw [countTy_concat_end _ _ (by decide)]
        omega
      · cases pfW with
        | none =>
          obtain ⟨db2, heq, _, _⟩ :=
            workflow_stream_none_noPf_eq cid incoming db t (chunks.map .parsed) db1 h1 hex1 hacc
          rw [heq, forwardFrames_parsed, countTy_concat_end _ _ (by decide)]
          omega
        | some m =>
          rw [workflow_stream_none_pf_eq cid incoming db t (chunks.map .parsed) m db1 h1 hacc,
            forwardFrames_parsed, countTy_append, countTy_pair,
            countTy_single_eq _ _ (completedF_ty _),
            countTy_single_ne streamEndF _ (by rw [streamEndF_ty]; decide)]
          omega
    | some m =>
      rw [workflow_stream_raise_eq cid incoming db t (chunks.map .parsed) m pfW db1 h1,
        forwardFrames_parsed, countTy_append, countTy_pair,
        countTy_single_eq _ _ (completedF_ty _),
        countTy_single_ne streamEndF _ (by rw [streamEndF_ty]; decide)]
      omega

/-- Witness for C3 (amended): with no injected persistence fault the
direct path emits exactly one `completed_message`; with a fault it emits
exactly two. -/
theorem completed_message_count_witness :
    countTy (response_stream "c1" [("user", "Hi")] dbEx 0 (.ok [some "Hel", some "lo"])
      none).frames "completed_message" = 1
    ∧ countTy (workflow_turn "c1" [("user", "Hi")] dbEx 0 [.textDelta (some "Hello")] none
      none).frames "completed_message" ≤ 2 :=
  completed_message_count "c1" [("user", "Hi")] dbEx 0 (.ok [some "Hel", some "lo"]) none
    [.textDelta (some "Hello")] none none (by decide) (by decide)

/-- C3 counterexample: when assistant persistence fails after the
`completed_message` frame was emitted, the turn carries two
`completed_message` frames, refuting "at most one". -/
theorem completed_message_count_cex :
    countTy (response_stream "c1" [] dbEx 0 (.ok [some "Hi"])
        (some ⟨"disk I/O error", some "disk I/O error", none⟩)).frames
      "completed_message" = 2
    ∧ ¬countTy (response_stream "c1" [] dbEx 0 (.ok [some "Hi"])
        (some ⟨"disk I/O error", some "disk I/O error", none⟩)).frames
      "completed_message" ≤ 1 := by
  constructor <;> decide

/-! ## C5: the set of frame types on the wire -/

lemma response_stream_raised_eq (cid : String) (incoming : List (String × String)) (db : DB)
    (t : Nat) (up : ChatUpstream) (pfC : Option Exc) (db1 : DB)
    (h1 : appendAll db cid incoming t = (db1, false)) :
    response_stream cid incoming db t up pfC = ⟨[conversationF cid], db1, true⟩ := by
  unfold response_stream
  rw [h1]

lemma response_stream_ok_eq_noPf_ok (cid : String) (incoming : List (String × String))
    (db : DB) (t : Nat) (evs : List (Option String)) (db1 db2 : DB) (mid : Nat)
    (h1 : appendAll db cid incoming t = (db1, true))
    (hacc : ¬accText evs = "")
    (happ : append_message db1 cid "assistant" (accText evs) t = .ok (db2, mid)) :
    response_stream cid incoming db t (.ok evs) none =
      ⟨[conversationF cid] ++ deltaFrames evs ++ [completedF (accText evs)] ++ [streamEndF],
        db2, false⟩ := by
  have hb : (accText evs == "") = false := by rw [beq_eq_false_iff_ne]; exact hacc
  simp [response_stream, h1, hb, happ]

lemma response_stream_ok_eq_noPf_err (cid : String) (incoming : List (String × String))
    (db : DB) (t : Nat) (evs : List (Option String)) (db1 : DB) (m : String)
    (h1 : appendAll db cid incoming t = (db1, true))
    (hacc : ¬accText evs = "")
    (happ : append_message db1 cid "assistant" (accText evs) t = .error m) :
    response_stream cid incoming db t (.ok evs) none =
      ⟨[conversationF cid] ++ deltaFrames evs ++ [completedF (accText evs)]
          ++ [completedF (processError ⟨m, some m, none⟩), streamEndF],
        db1, false⟩ := by
  have hb : (accText evs == "") = false := by rw [beq_eq_false_iff_ne]; exact hacc
  simp [response_stream, h1, hb, happ]

lemma workflow_stream_raised_eq (cid : String) (incoming : List (String × String)) (db : DB)
    (t : Nat) (wchunks : List WChunk) (wraise : Option String) (pf : Option String)
    (db1 : DB)
    (h1 : appendAll db cid incoming t = (db1, false)) :
    workflow_stream cid incoming db t wchunks wraise pf = ⟨[conversationF cid], db1, true⟩ := by
  unfold workflow_stream
  rw [h1]

lemma workflow_stream_none_noPf_ok (cid : String) (incoming : List (String × String))
    (db : DB) (t : Nat) (wchunks : List WChunk) (db1 db2 : DB) (mid : Nat)
    (h1 : appendAll db cid incoming t = (db1, true))
    (hacc : ¬wAcc wchunks = "")
    (happ : append_message db1 cid "assistant" (wAcc wchunks) t = .ok (db2, mid)) :
    workflow_stream cid incoming db t wchunks none none =
      ⟨[conversationF cid] ++ forwardFrames wchunks ++ [streamEndF], db2, false⟩ := by
  have hb : (wAcc wchunks == "") = false := by rw [beq_eq_false_iff_ne]; exact hacc
  simp [workflow_stream, h1, hb, happ]

lemma workflow_stream_none_noPf_err (cid : String) (incoming : List (String × String))
    (db : DB) (t : Nat) (wchunks : List WChunk) (db1 : DB) (m : String)
    (h1 : appendAll db cid incoming t = (db1, true))
    (hacc : ¬wAcc wchunks = "")
    (happ : append_message db1 cid "assistant" (wAcc wchunks) t = .error m) :
    workflow_stream cid incoming db t wchunks none none =
      ⟨[conversationF cid] ++ forwardFrames wchunks
          ++ [completedF ("Error calling workflow: " ++ m), streamEndF],
        db1, false⟩ := by
  have hb : (wAcc wchunks == "") = false := by rw [beq_eq_false_iff_ne]; exact hacc
  simp [workflow_stream, h1, hb, happ]

/-- The wire frame types the stream operation actually emits. -/
def wireTys : List (Option String) :=
  [some "conversation", some "message", some "message_delta", some "completed_message",
   some "completion_summary", some "stream_end"]

lemma contains_wireTys_of (f : Frame)
    (h : f.ty = some "conversation" ∨ f.ty = some "message" ∨ f.ty = some "message_delta"
      ∨ f.ty = some "completed_message" ∨ f.ty = some "completion_summary"
      ∨ f.ty = some "stream_end") :
    wireTys.contains f.ty = true := by
  rcases h with h | h | h | h | h | h <;> rw [h] <;> decide

lemma all_wire_append (a b : List Frame)
    (ha : a.all (fun f => wireTys.contains f.ty) = true)
    (hb : b.all (fun f => wireTys.contains f.ty) = true) :
    (a ++ b).all (fun f => wireTys.contains f.ty) = true := by
  rw [List.all_append, ha, hb]
  rfl

lemma all_wire_single (f : Frame) (h : wireTys.contains f.ty = true) :
    [f].all (fun f => wireTys.contains f.ty) = true := by
  simp only [List.all_cons, List.all_nil, h, Bool.and_true]

lemma all_wire_pair (f g : Frame) (hf : wireTys.contains f.ty = true)
    (hg : wireTys.contains g.ty = true) :
    [f, g].all (fun f => wireTys.contains f.ty) = true := by
  simp only [List.all_cons, List.all_nil, hf, hg, Bool.and_true]

lemma all_wire_delta (evs : List (Option String)) :
    (deltaFrames evs).all (fun f => wireTys.contains f.ty) = true :=
  List.all_eq_true.mpr fun f hf =>
    contains_wireTys_of f (Or.inr (Or.inl (deltaFrames_ty evs f hf)))

lemma all_wire_chunks (chunks : List Frame)
    (hty : ∀ f ∈ chunks, f.ty = some "message_delta" ∨ f.ty = some "message"
      ∨ f.ty = some "completion_summary" ∨ f.ty = some "completed_message") :
    chunks.all (fun f => wireTys.contains f.ty) = true :=
  List.all_eq_true.mpr fun f hf => by
    rcases hty f hf with h | h | h | h
    · exact contains_wireTys_of f (Or.inr (Or.inr (Or.inl h)))
    · exact contains_wireTys_of f (Or.inr (Or.inl h))
    · exact contains_wireTys_of f (Or.inr (Or.inr (Or.inr (Or.inr (Or.inl h)))))
    · exact contains_wireTys_of f (Or.inr (Or.inr (Or.inr (Or.inl h))))

lemma frames_ty_resp (cid : String) (incoming : List (String × String)) (db : DB)
    (t : Nat) (up : ChatUpstream) (pfC : Option Exc) :
    (response_stream cid incoming db t up pfC).frames.all
      (fun f => wireTys.contains f.ty) = true := by
  have hconv := all_wire_single (conversationF cid)
    (contains_wireTys_of _ (Or.inl (conversationF_ty cid)))
  have hend := all_wire_single streamEndF
    (contains_wireTys_of _ (Or.inr (Or.inr (Or.inr (Or.inr (Or.inr streamEndF_ty))))))
  rcases h1 : appendAll db cid incoming t with ⟨db1, b⟩
  cases b with
  | false =>
    rw [response_stream_raised_eq cid incoming db t up pfC db1 h1]
    exact hconv
  | true =>
    have hcm : ∀ s, wireTys.contains (completedF s).ty = true := fun s =>
      contains_wireTys_of _ (Or.inr (Or.inr (Or.inr (Or.inl (completedF_ty s)))))
    cases up with
    | ok evs =>
      have hpre2 : ∀ s, ([conversationF cid] ++ deltaFrames evs ++ [completedF s]).all
          (fun f => wireTys.contains f.ty) = true := fun s =>
        all_wire_append _ _ (all_wire_append _ _ hconv (all_wire_delta evs))
          (all_wire_single _ (hcm s))
      by_cases hacc : accText evs = ""
      · rw [response_stream_ok_eq_empty cid incoming db t evs pfC db1 h1 hacc]
        exact all_wire_append _ _ (hpre2 _) hend
      · cases pfC with
        | none =>
          rcases happ : append_message db1 cid "assistant" (accText evs) t with m | ⟨db2, mid⟩
          · rw [response_stream_ok_eq_noPf_err cid incoming db t evs db1 m h1 hacc happ]
            exact all_wire_append _ _ (hpre2 _) (all_wire_pair _ _ (hcm _)
              (contains_wireTys_of _ (Or.inr (Or.inr (Or.inr (Or.inr
                (Or.inr streamEndF_ty)))))))
          · rw [response_stream_ok_eq_noPf_ok cid incoming db t evs db1 db2 mid h1 hacc happ]
            exact all_wire_append _ _ (hpre2 _) hend
        | some e =>
          rw [response_stream_ok_eq_pf cid incoming db t evs e db1 h1 hacc]
          exact all_wire_append _ _ (hpre2 _) (all_wire_pair _ _ (hcm _)
            (contains_wireTys_of _ (Or.inr (Or.inr (Or.inr (Or.inr
              (Or.inr streamEndF_ty)))))))
    | fault evs e =>
      rw [response_stream_fault_eq cid incoming db t evs e pfC db1 h1]
      exact all_wire_append _ _ (all_wire_append _ _ hconv (all_wire_delta evs))
        (all_wire_pair _ _ (hcm _)
          (contains_wireTys_of _ (Or.inr (Or.inr (Or.inr (Or.inr
            (Or.inr streamEndF_ty)))))))

lemma frames_ty_workflow (cid : String) (incoming : List (String × String)) (db : DB)
    (t : Nat) (events : List UEvent) (ufault : Option String) (pfW : Option String) :
    (workflow_turn cid incoming db t events ufault pfW).frames.all
      (fun f => wireTys.contains f.ty) = true := by
  have hconv := all_wire_single (conversationF cid)
    (contains_wireTys_of _ (Or.inl (conversationF_ty cid)))
  have hend := all_wire_single streamEndF
    (contains_wireTys_of _ (Or.inr (Or.inr (Or.inr (Or.inr (Or.inr streamEndF_ty))))))
  have hendc : wireTys.contains streamEndF.ty = true :=
    contains_wireTys_of _ (Or.inr (Or.inr (Or.inr (Or.inr (Or.inr streamEndF_ty)))))
  have hcm : ∀ s, wireTys.contains (completedF s).ty = true := fun s =>
    contains_wireTys_of _ (Or.inr (Or.inr (Or.inr (Or.inl (completedF_ty s)))))
  rcases h1 : appendAll db cid incoming t with ⟨db1, b⟩
  rcases hsc : stream_conversation
      ((get_messages db1 cid 200 0).map (fun m => (m.role, m.content))) events ufault
    with ⟨chunks, err⟩
  have hty : ∀ f ∈ chunks, f.ty = some "message_delta" ∨ f.ty = some "message"
      ∨ f.ty = some "completion_summary" ∨ f.ty = some "completed_message" :=
    fun f hf => stream_conversation_ty _ events ufault f (by rw [hsc]; exact hf)
  have hpre : ([conversationF cid] ++ chunks).all (fun f => wireTys.contains f.ty) = true :=
    all_wire_append _ _ hconv (all_wire_chunks chunks hty)
  cases b with
  | false =>
    have hturn : workflow_turn cid incoming db t events ufault pfW =
        workflow_stream cid incoming db t (chunks.map .parsed) err pfW := by
      unfold workflow_turn
      rw [h1]
      simp only [hsc]
    rw [hturn, workflow_stream_raised_eq cid incoming db t (chunks.map .parsed) err pfW db1 h1]
    exact hconv
  | true =>
    rw [workflow_turn_eq cid incoming db t events ufault pfW db1 chunks err h1 hsc]
    cases err with
    | none =>
      by_cases hacc : wAcc (chunks.map .parsed) = ""
      · rw [workflow_stream_none_empty_eq cid incoming db t (chunks.map .parsed) pfW db1 h1
          hacc, forwardFrames_parsed]
        exact all_wire_append _ _ hpre hend
      · cases pfW with
        | none =>
          rcases happ : append_message db1 cid "assistant" (wAcc (chunks.map .parsed)) t
            with m | ⟨db2, mid⟩
          · rw [workflow_stream_none_noPf_err cid incoming db t (chunks.map .parsed) db1 m
              h1 hacc happ, forwardFrames_parsed]
            exact all_wire_append _ _ hpre (all_wire_pair _ _ (hcm _) hendc)
          · rw [workflow_stream_none_noPf_ok cid incoming db t (chunks.map .parsed) db1 db2
              mid h1 hacc happ, forwardFrames_parsed]
            exact all_wire_append _ _ hpre hend
        | some m =>
          rw [workflow_stream_none_pf_eq cid incoming db t (chunks.map .parsed) m db1 h1 hacc,
            forwardFrames_parsed]
          exact all_wire_append _ _ hpre (all_wire_pair _ _ (hcm _) hendc)
    | some m =>
      rw [workflow_stream_raise_eq cid incoming db t (chunks.map .parsed) m pfW db1 h1,
        forwardFrames_parsed]
      exact all_wire_append _ _ hpre (all_wire_pair _ _ (hcm _) hendc)

/-- C5 (amended).  Every frame either backend emits to the client has a
`type` drawn from {`conversation`, `message`, `message_delta`,
`completed_message`, `completion_summary`, `stream_end`}: the workflow
path forwards the client's `completion_summary` chunk to the wire
verbatim, so that type is part of the emitted vocabulary as well. -/
theorem frame_types_closed (cid : String)
    (incoming : List (String × String)) (db : DB) (t : Nat)
    (up : ChatUpstream) (pfC : Option Exc)
    (events : List UEvent) (ufault : Option String) (pfW : Option String) :
    (response_stream cid incoming db t up pfC).frames.all
        (fun f => wireTys.contains f.ty) = true
    ∧ (workflow_turn cid incoming db t events ufault pfW).frames.all
        (fun f => wireTys.contains f.ty) = true :=
  ⟨frames_ty_resp cid incoming db t up pfC,
   frames_ty_workflow cid incoming db t events ufault pfW⟩

/-- The frame-type set claimed by the specification, without
`completion_summary`. -/
def claimWireTys : List (Option String) :=
  [some "conversation", some "message", some "message_delta", some "completed_message",
   some "stream_end"]

/-- C5 counterexample: a normally completing workflow turn forwards a
`completion_summary` frame, which lies outside the claimed type set. -/
theorem frame_types_cex :
    (workflow_turn "c1" [("user", "Hi")] dbEx 0 [] none none).frames.all
      (fun f => claimWireTys.contains f.ty) = false := by
  decide

/-! ## C7: content-filter rejections -/

/-- C7.  When the upstream raises a fault whose first argument mentions
`(content_filter)` and whose reachable payload carries a filter result,
the turn emits exactly one `completed_message`, whose text is
`filterText entries` — the fixed prefix followed by exactly the triggered
categories in payload order, each with its severity when present —
immediately followed by `stream_end`, and the fault is not re-raised. -/
theorem content_filter_completed_message (cid : String)
    (incoming : List (String × String)) (db : DB) (t : Nat)
    (evs : List (Option String)) (pf : Option Exc)
    (e : Exc) (a : String) (entries : List FilterEntry)
    (hex : conversation_exists db cid = true)
    (hroles : ∀ p ∈ incoming, validRole p.1 = true)
    (ha : e.args0 = some a)
    (hsub : containsSub a "(content_filter)" = true)
    (hcfr : e.content_filter_result = some entries) :
    (response_stream cid incoming db t (.fault evs e) pf).frames
      = [conversationF cid] ++ deltaFrames evs
        ++ [completedF (filterText entries), streamEndF]
    ∧ countTy (response_stream cid incoming db t (.fault evs e) pf).frames
        "completed_message" = 1
    ∧ (response_stream cid incoming db t (.fault evs e) pf).raised = false := by
  obtain ⟨db1, h1, _, _⟩ := appendAll_ok cid incoming db t hex hroles
  have hpe : processError e = filterText entries := by
    simp [processError, ha, hsub, hcfr]
  rw [response_stream_fault_eq cid incoming db t evs e pf db1 h1]
  refine ⟨by rw [hpe], ?_, rfl⟩
  rw [hpe, countTy_append, countTy_pair, cm_count_resp,
    countTy_single_eq _ _ (completedF_ty _),
    countTy_single_ne streamEndF _ (by rw [streamEndF_ty]; decide)]

/-- Witness for C7 at the Scenario-B payload: category `hate`, severity
`medium`. -/
theorem content_filter_completed_message_witness :
    (response_stream "c1" [("user", "Hi")] dbEx 0
        (.fault [] ⟨"err", some "boom (content_filter) x",
          some [⟨"hate", true, some "medium"⟩]⟩) none).frames
      = [conversationF "c1"] ++ deltaFrames []
        ++ [completedF (filterText [⟨"hate", true, some "medium"⟩]), streamEndF] :=
  (content_filter_completed_message "c1" [("user", "Hi")] dbEx 0 [] none
    ⟨"err", some "boom (content_filter) x", some [⟨"hate", true, some "medium"⟩]⟩
    "boom (content_filter) x" [⟨"hate", true, some "medium"⟩]
    (by decide) (by decide) rfl (by decide) rfl).1

/-! ## C8: workflow-action items in the delta-stream transport -/

lemma lookupD_bump (l : List (String × String)) (k v : String) (h : hasKey l k = true) :
    lookupD (bumpContent l k v) k = lookupD l k ++ v := by
  induction l with
  | nil => simp [hasKey] at h
  | cons p ps ih =>
    by_cases hp : (p.1 == k) = true
    · simp [bumpContent, lookupD, List.find?, hp]
    · have hp' : (p.1 == k) = false := Bool.eq_false_iff.mpr hp
      have h' : hasKey ps k = true := by
        have := h
        simp only [hasKey, List.any_cons, hp', Bool.false_or] at this
        exact this
      have ihr := ih h'
      simp only [bumpContent, lookupD, List.map_cons, hp', Bool.false_eq_true, if_false,
        List.find?, hp'] at ihr ⊢
      exact ihr

lemma lookupD_absent (l : List (String × String)) (k : String) (h : hasKey l k = false) :
    lookupD l k = "" := by
  induction l with
  | nil => rfl
  | cons p ps ih =>
    simp only [hasKey, List.any_cons, Bool.or_eq_false_iff] at h
    have ihr := ih h.2
    simp only [lookupD, List.find?, h.1] at ihr ⊢
    exact ihr

lemma lookupD_append_absent (l : List (String × String)) (k : String)
    (h : hasKey l k = false) : lookupD (l ++ [(k, "")]) k = "" := by
  induction l with
  | nil => simp [lookupD, List.find?]
  | cons p ps ih =>
    simp only [hasKey, List.any_cons, Bool.or_eq_false_iff] at h
    have ihr := ih h.2
    simp only [List.cons_append, lookupD, List.find?, h.1] at ihr ⊢
    exact ihr

/-- `registerItem` leaves the accumulated content of the key unchanged:
an already-present key keeps its entry, and an absent key gets `""`,
which is also what `lookupD` returns for an absent key. -/
lemma lookupD_register (st : WCState) (k : String) :
    lookupD (registerItem st k).items_content k = lookupD st.items_content k := by
  rw [registerItem]
  by_cases h : hasKey st.items_content k = true
  · rw [if_pos h]
  · have h' : hasKey st.items_content k = false := Bool.eq_false_iff.mpr h
    rw [if_neg h]
    show lookupD (st.items_content ++ [(k, "")]) k = lookupD st.items_content k
    rw [lookupD_append_absent _ _ h', lookupD_absent _ _ h']

lemma hasKey_register (st : WCState) (k : String) :
    hasKey (registerItem st k).items_content k = true := by
  rw [registerItem]
  by_cases h : hasKey st.items_content k = true
  · rw [if_pos h]
    exact h
  · rw [if_neg h]
    show hasKey (st.items_content ++ [(k, "")]) k = true
    simp [hasKey]

lemma register_current (st : WCState) (k : String) :
    (registerItem st k).current_item_id = st.current_item_id := by
  rw [registerItem]
  split <;> rfl

lemma lookupD_register_bump (st : WCState) (k v : String) :
    lookupD (bumpContent (registerItem st k).items_content k v) k
      = lookupD st.items_content k ++ v := by
  rw [lookupD_bump _ _ _ (hasKey_register st k), lookupD_register]

/-- C8.  In the delta-stream transport, a `response.output_item.added`
event for an item of type `workflow_action` yields one synthetic
`message_delta` chunk attributed to the item's id, whose text carries the
action identifier and status; the same text is appended to the item's
accumulated content, the current item switches to this item, and the next
untagged nonempty text delta is attributed to the new item id. -/
theorem workflow_action_synthetic_delta (st : WCState) (it : WItem) (d : String)
    (hty : it.ty = some "workflow_action") (hd : ¬d = "") :
    (stepEvent st (.itemAdded (some it))).1
      = [messageDeltaF (it.id.getD "unknown")
          ("[workflow_action] " ++ it.action_id.getD "" ++ " status=" ++ it.status.getD "")]
    ∧ lookupD (stepEvent st (.itemAdded (some it))).2.items_content (it.id.getD "unknown")
      = lookupD st.items_content (it.id.getD "unknown")
        ++ ("[workflow_action] " ++ it.action_id.getD "" ++ " status=" ++ it.status.getD "")
    ∧ (stepEvent st (.itemAdded (some it))).2.current_item_id = it.id.getD "unknown"
    ∧ (stepEvent (stepEvent st (.itemAdded (some it))).2 (.textDelta (some d))).1
      = [messageDeltaF (it.id.getD "unknown") d] := by
  have hcur : (stepEvent st (.itemAdded (some it))).2.current_item_id
      = it.id.getD "unknown" := by
    simp [stepEvent, hty, register_current]
  refine ⟨?_, ?_, hcur, ?_⟩
  · simp [stepEvent, hty]
  · have h2 := lookupD_register_bump
      { st with current_item_id := it.id.getD "unknown" } (it.id.getD "unknown")
      ("[workflow_action] " ++ it.action_id.getD "" ++ " status=" ++ it.status.getD "")
    simpa [stepEvent, hty] using h2
  · have hb : (d == "") = false := by rw [beq_eq_false_iff_ne]; exact hd
    generalize hg : (stepEvent st (.itemAdded (some it))).2 = st'
    rw [hg] at hcur
    simp [stepEvent, hb, hcur]

/-- Witness for C8 at a concrete action item and follow-up delta. -/
theorem workflow_action_synthetic_delta_witness :
    (stepEvent initWC (.itemAdded (some ⟨some "workflow_action", some "item1",
        some "in_progress", some "act42"⟩))).1
      = [messageDeltaF "item1" "[workflow_action] act42 status=in_progress"]
    ∧ (stepEvent (stepEvent initWC (.itemAdded (some ⟨some "workflow_action", some "item1",
        some "in_progress", some "act42"⟩))).2 (.textDelta (some "x"))).1
      = [messageDeltaF "item1" "x"] :=
  ⟨(workflow_action_synthetic_delta initWC
      ⟨some "workflow_action", some "item1", some "in_progress", some "act42"⟩ "x"
      rfl (by decide)).1,
   (workflow_action_synthetic_delta initWC
      ⟨some "workflow_action", some "item1", some "in_progress", some "act42"⟩ "x"
      rfl (by decide)).2.2.2⟩

/-! ## C2: the workflow path never persists the streamed text

`WorkflowClient.stream_conversation` tags its text deltas
`"message_delta"` (although its own docstring documents `"message"`), while
`workflow_stream` accumulates content only from chunks of type
`"message"`; on a plain successful workflow turn `accumulated_response`
therefore stays empty and no assistant message is appended, even though
the `completed_message` chunk carries the streamed text. -/

/-- C2 evaluated at the failing input: one upstream delta `"Hello"`; the
wire carries `completed_message "Hello"` but the store receives no
assistant message at all. -/
theorem workflow_persistence_mismatch :
    completedF "Hello" ∈ (workflow_turn "c1" [("user", "Hi")] dbEx 0
      [.textDelta (some "Hello")] none none).frames
    ∧ (workflow_turn "c1" [("user", "Hi")] dbEx 0 [.textDelta (some "Hello")] none
        none).db.messages.filter (fun m => m.role == "assistant") = [] := by
  constructor <;> decide

/-! ## C6: unknown conversation ids fail with 404 before streaming -/

lemma response_stream_head (cid : String) (incoming : List (String × String)) (db : DB)
    (t : Nat) (up : ChatUpstream) (pfC : Option Exc) :
    (response_stream cid incoming db t up pfC).frames.head? = some (conversationF cid) := by
  rcases h1 : appendAll db cid incoming t with ⟨db1, b⟩
  cases b with
  | false =>
    rw [response_stream_raised_eq cid incoming db t up pfC db1 h1]
    rfl
  | true =>
    cases up with
    | ok evs =>
      by_cases hacc : accText evs = ""
      · rw [response_stream_ok_eq_empty cid incoming db t evs pfC db1 h1 hacc]
        rfl
      · cases pfC with
        | none =>
          rcases happ : append_message db1 cid "assistant" (accText evs) t with m | ⟨db2, mid⟩
          · rw [response_stream_ok_eq_noPf_err cid incoming db t evs db1 m h1 hacc happ]
            rfl
          · rw [response_stream_ok_eq_noPf_ok cid incoming db t evs db1 db2 mid h1 hacc happ]
            rfl
        | some e =>
          rw [response_stream_ok_eq_pf cid incoming db t evs e db1 h1 hacc]
          rfl
    | fault evs e =>
      rw [response_stream_fault_eq cid incoming db t evs e pfC db1 h1]
      rfl

lemma response_stream_exists (cid : String) (incoming : List (String × String)) (db : DB)
    (t : Nat) (up : ChatUpstream) (pfC : Option Exc) (x : String) :
    conversation_exists (response_stream cid incoming db t up pfC).db x
      = conversation_exists db x := by
  rcases h1 : appendAll db cid incoming t with ⟨db1, b⟩
  have hdb1 : conversation_exists db1 x = conversation_exists db x := by
    have hp := appendAll_exists cid incoming db t x
    rw [h1] at hp
    exact hp
  cases b with
  | false =>
    rw [response_stream_raised_eq cid incoming db t up pfC db1 h1]
    exact hdb1
  | true =>
    cases up with
    | ok evs =>
      by_cases hacc : accText evs = ""
      · rw [response_stream_ok_eq_empty cid incoming db t evs pfC db1 h1 hacc]
        exact hdb1
      · cases pfC with
        | none =>
          rcases happ : append_message db1 cid "assistant" (accText evs) t with m | ⟨db2, mid⟩
          · rw [response_stream_ok_eq_noPf_err cid incoming db t evs db1 m h1 hacc happ]
            exact hdb1
          · rw [response_stream_ok_eq_noPf_ok cid incoming db t evs db1 db2 mid h1 hacc happ]
            have h2 := (append_message_ok_inv db1 db2 cid "assistant" (accText evs) t mid
              happ).2.2.2 x
            show conversation_exists db2 x = conversation_exists db x
            rw [h2]
            exact hdb1
        | some e =>
          rw [response_stream_ok_eq_pf cid incoming db t evs e db1 h1 hacc]
          exact hdb1
    | fault evs e =>
      rw [response_stream_fault_eq cid incoming db t evs e pfC db1 h1]
      exact hdb1

lemma workflow_stream_head (cid : String) (incoming : List (String × String)) (db : DB)
    (t : Nat) (wchunks : List WChunk) (wraise : Option String) (pf : Option String) :
    (workflow_stream cid incoming db t wchunks wraise pf).frames.head?
      = some (conversationF cid) := by
  rcases h1 : appendAll db cid incoming t with ⟨db1, b⟩
  cases b with
  | false =>
    rw [workflow_stream_raised_eq cid incoming db t wchunks wraise pf db1 h1]
    rfl
  | true =>
    cases wraise with
    | some m =>
      rw [workflow_stream_raise_eq cid incoming db t wchunks m pf db1 h1]
      rfl
    | none =>
      by_cases hacc : wAcc wchunks = ""
      · rw [workflow_stream_none_empty_eq cid incoming db t wchunks pf db1 h1 hacc]
        rfl
      · cases pf with
        | none =>
          rcases happ : append_message db1 cid "assistant" (wAcc wchunks) t with m | ⟨db2, mid⟩
          · rw [workflow_stream_none_noPf_err cid incoming db t wchunks db1 m h1 hacc happ]
            rfl
          · rw [workflow_stream_none_noPf_ok cid incoming db t wchunks db1 db2 mid h1 hacc happ]
            rfl
        | some m =>
          rw [workflow_stream_none_pf_eq cid incoming db t wchunks m db1 h1 hacc]
          rfl

lemma workflow_stream_exists (cid : String) (incoming : List (String × String)) (db : DB)
    (t : Nat) (wchunks : List WChunk) (wraise : Option String) (pf : Option String)
    (x : String) :
    conversation_exists (workflow_stream cid incoming db t wchunks wraise pf).db x
      = conversation_exists db x := by
  rcases h1 : appendAll db cid incoming t with ⟨db1, b⟩
  have hdb1 : conversation_exists db1 x = conversation_exists db x := by
    have hp := appendAll_exists cid incoming db t x
    rw [h1] at hp
    exact hp
  cases b with
  | false =>
    rw [workflow_stream_raised_eq cid incoming db t wchunks wraise pf db1 h1]
    exact hdb1
  | true =>
    cases wraise with
    | some m =>
      rw [workflow_stream_raise_eq cid incoming db t wchunks m pf db1 h1]
      exact hdb1
    | none =>
      by_cases hacc : wAcc wchunks = ""
      · rw [workflow_stream_none_empty_eq cid incoming db t wchunks pf db1 h1 hacc]
        exact hdb1
      · cases pf with
        | none =>
          rcases happ : append_message db1 cid "assistant" (wAcc wchunks) t with m | ⟨db2, mid⟩
          · rw [workflow_stream_none_noPf_err cid incoming db t wchunks db1 m h1 hacc happ]
            exact hdb1
          · rw [workflow_stream_none_noPf_ok cid incoming db t wchunks db1 db2 mid h1 hacc happ]
            have h2 := (append_message_ok_inv db1 db2 cid "assistant" (wAcc wchunks) t mid
              happ).2.2.2 x
            show conversation_exists db2 x = conversation_exists db x
            rw [h2]
            exact hdb1
        | some m =>
          rw [workflow_stream_none_pf_eq cid incoming db t wchunks m db1 h1 hacc]
          exact hdb1

lemma workflow_turn_head (cid : String) (incoming : List (String × String)) (db : DB)
    (t : Nat) (events : List UEvent) (ufault : Option String) (pf : Option String) :
    (workflow_turn cid incoming db t events ufault pf).frames.head?
      = some (conversationF cid) := by
  unfold workflow_turn
  exact workflow_stream_head cid incoming db t _ _ pf

lemma workflow_turn_exists (cid : String) (incoming : List (String × String)) (db : DB)
    (t : Nat) (events : List UEvent) (ufault : Option String) (pf : Option String)
    (x : String) :
    conversation_exists (workflow_turn cid incoming db t events ufault pf).db x
      = conversation_exists db x := by
  unfold workflow_turn
  exact workflow_stream_exists cid incoming db t _ _ pf x

/-- C6.  A request carrying a conversation id that does not exist fails
with the 404 `NotFound` before any frame is emitted and with the store
untouched; a request carrying no conversation id instead creates a fresh
conversation, streams under its id, and leaves it existing in the store.
-/
theorem unknown_conversation_not_found (useW : Bool) (req : ChatRequest) (db : DB)
    (freshId : String) (t : Nat) (events : List UEvent) (ufault : Option String)
    (up : ChatUpstream) (pfW : Option String) (pfC : Option Exc) :
    (∀ cid, req.conversation_id = some cid → conversation_exists db cid = false →
      chat_stream_handler useW req db freshId t events ufault up pfW pfC = .notFound db)
    ∧ (req.conversation_id = none →
      ∃ res, chat_stream_handler useW req db freshId t events ufault up pfW pfC = .ok res
        ∧ res.frames.head? = some (conversationF freshId)
        ∧ conversation_exists res.db freshId = true) := by
  constructor
  · intro cid hcid hex
    unfold chat_stream_handler
    rw [hcid]
    simp [hex]
  · intro hnone
    unfold chat_stream_handler
    rw [hnone]
    cases useW with
    | true =>
      refine ⟨_, rfl, ?_, ?_⟩
      · exact workflow_turn_head freshId req.messages _ t events ufault pfW
      · show conversation_exists (workflow_turn freshId req.messages
            (create_conversation db none freshId t) t events ufault pfW).db freshId = true
        rw [workflow_turn_exists freshId req.messages _ t events ufault pfW freshId]
        exact conversation_exists_create db none freshId t
    | false =>
      refine ⟨_, rfl, ?_, ?_⟩
      · exact response_stream_head freshId req.messages _ t up pfC
      · show conversation_exists (response_stream freshId req.messages
            (create_conversation db none freshId t) t up pfC).db freshId = true
        rw [response_stream_exists freshId req.messages _ t up pfC freshId]
        exact conversation_exists_create db none freshId t

/-- Witness for C6: an unknown id yields 404 on the untouched store, and
an id-less request streams under the freshly created conversation. -/
theorem unknown_conversation_not_found_witness :
    chat_stream_handler false ⟨some "nope", [("user", "Hi")]⟩ dbEx "f1" 0 [] none
      (.ok []) none none = .notFound dbEx
    ∧ ∃ res, chat_stream_handler false ⟨none, [("user", "Hi")]⟩ dbEx "f1" 0 [] none
        (.ok []) none none = .ok res
      ∧ res.frames.head? = some (conversationF "f1")
      ∧ conversation_exists res.db "f1" = true :=
  ⟨(unknown_conversation_not_found false ⟨some "nope", [("user", "Hi")]⟩ dbEx "f1" 0 [] none
      (.ok []) none none).1 "nope" rfl (by decide),
   (unknown_conversation_not_found false ⟨none, [("user", "Hi")]⟩ dbEx "f1" 0 [] none
      (.ok []) none none).2 rfl⟩

end ChatRelay
